import Mathlib

/-!
Verification of tftpd: packet codec, reliable delivery primitive and transfer
handlers.

A shallow embedding of `server/packet.go`, `server/server.go` and
`storage/storage.go`.

Conventions of the embedding:

* a Go `[]byte` and a Go `string` are both a `List Nat` of byte values
  (`string(b)` and `[]byte(s)` are the identity on the byte sequence);
* a `uint16` is a `Nat`; arithmetic on it is reduced `% 65536` where the Go
  code can overflow (`blk + 1`, `blk += 1`);
* a function returning `(T, error)` returns `Except GoError T`.
-/

namespace Tftpd

deriving instance DecidableEq for Except

/-- A Go byte slice: the list of its byte values. -/
abbrev Bytes := List Nat

/-- A Go string: the list of its bytes. -/
abbrev GoString := List Nat

/-- Bytes of an ASCII string literal of the source. -/
def str (s : String) : GoString := s.toList.map Char.toNat

/-- A `net.Addr`: `Network()` and `String()`, as in `MockAddr` of the tests. -/
structure Addr where
  Net : GoString
  Host : GoString
deriving DecidableEq, Repr

/-- The method `String()` of a `net.Addr`. -/
def Addr.String (a : Addr) : GoString := a.Host

/-- The struct `TidError` of server.go. -/
structure TidError where
  Tid : Addr
  Msg : GoString
deriving DecidableEq, Repr

/-- A Go `error` value, by the dynamic type that `Transmit` distinguishes:
a `net.Error` whose `Timeout()` is true, a `TidError`, or any other error.
Each carries the text that `Error()` returns. -/
inductive GoError where
  | timeout (msg : GoString)
  | tid (t : TidError)
  | other (msg : GoString)
deriving DecidableEq, Repr

/-- The method `Error()`. -/
def GoError.Error : GoError → GoString
  | .timeout msg => msg
  | .tid t => t.Msg
  | .other msg => msg

/-! ## packet.go -/

def OpRead : Nat := 1
def OpWrite : Nat := 2
def OpData : Nat := 3
def OpAck : Nat := 4
def OpErr : Nat := 5

structure ReadPacket where
  File : GoString
  Mode : GoString
deriving DecidableEq, Repr

structure WritePacket where
  File : GoString
  Mode : GoString
deriving DecidableEq, Repr

structure DataPacket where
  Block : Nat
  Data : Bytes
deriving DecidableEq, Repr

structure AckPacket where
  Block : Nat
deriving DecidableEq, Repr

structure ErrPacket where
  ErrCode : Nat
  ErrMsg : GoString
deriving DecidableEq, Repr

/-- The interface `Packet`: the types that have a method `Bytes()`. -/
inductive Packet where
  | data (dp : DataPacket)
  | ack (ap : AckPacket)
  | err (ep : ErrPacket)
deriving DecidableEq, Repr

/-- A dynamic value `interface{}` as returned by `MakePacket` and `Transmit`. -/
inductive Raw where
  | read (rp : ReadPacket)
  | write (wp : WritePacket)
  | data (dp : DataPacket)
  | ack (ap : AckPacket)
  | err (ep : ErrPacket)
deriving DecidableEq, Repr

/-- A `Packet` seen as a dynamic value. -/
def Packet.toRaw : Packet → Raw
  | .data dp => .data dp
  | .ack ap => .ack ap
  | .err ep => .err ep

/-- What `binary.Write(&buf, binary.BigEndian, v)` appends for a `uint16` v:
the high byte, then the low byte. -/
def writeUint16 (v : Nat) : Bytes := [v / 256 % 256, v % 256]

def DataPacket.Bytes (dp : DataPacket) : Except GoError Bytes :=
  .ok (writeUint16 OpData ++ writeUint16 dp.Block ++ dp.Data)

def AckPacket.Bytes (ap : AckPacket) : Except GoError Bytes :=
  .ok (writeUint16 OpAck ++ writeUint16 ap.Block)

def ErrPacket.Bytes (ep : ErrPacket) : Except GoError Bytes :=
  .ok (writeUint16 OpErr ++ writeUint16 ep.ErrCode ++ (ep.ErrMsg ++ [0]))

/-- Dynamic dispatch of `Bytes()` on the interface `Packet`. -/
def Packet.Bytes : Packet → Except GoError Bytes
  | .data dp => dp.Bytes
  | .ack ap => ap.Bytes
  | .err ep => ep.Bytes

/-- Valid field values of a packet that can be encoded: block number and error
code fit in 16 bits, and the text of an error message has no null byte. -/
def Packet.wellFormed : Packet → Prop
  | .data dp => dp.Block < 65536
  | .ack ap => ap.Block < 65536
  | .err ep => ep.ErrCode < 65536 ∧ 0 ∉ ep.ErrMsg

/-- The function `readUint16` on the bytes left in the reader: `binary.Read`
of a big-endian `uint16` fails with `EOF` on an empty reader and with
`unexpected EOF` on a single byte. -/
def readUint16 (rdr : Bytes) : Except GoError Nat :=
  match rdr with
  | [] => .error (.other (str "EOF"))
  | [_] => .error (.other (str "unexpected EOF"))
  | hi :: lo :: _ => .ok (hi * 256 + lo)

/-- The function `bytes.IndexByte`: index of the first `c` in `s`, if any. -/
def IndexByte : Bytes → Nat → Option Nat
  | [], _ => none
  | b :: bs, c => if b = c then some 0 else (IndexByte bs c).map (· + 1)

/-- The loop of `bytes.genSplit` for a one-byte separator, with `k` cuts
still allowed: cut at the first separator while there is one, and put the
unsplit remainder last. -/
def genSplit : Bytes → Nat → Nat → List Bytes
  | s, _, 0 => [s]
  | s, sep, k + 1 =>
    match IndexByte s sep with
    | none => [s]
    | some m => s.take m :: genSplit (s.drop (m + 1)) sep k

/-- The function `bytes.SplitN(s, []byte{sep}, n)` for `n ≥ 0`. -/
def SplitN (s : Bytes) (sep : Nat) (n : Nat) : List Bytes :=
  if n = 0 then [] else genSplit s sep (n - 1)

/-- The function `bytes.TrimSuffix`. -/
def TrimSuffix (s suffix : Bytes) : Bytes :=
  if suffix.isSuffixOf s then s.take (s.length - suffix.length) else s

def readRWPacket (buf : Bytes) : Except GoError (GoString × GoString) :=
  match SplitN buf 0 3 with
  | [s0, s1, _] => .ok (s0, s1)
  | _ => .error (.other (str "Malformed packet"))

def MakePacket (buf : Bytes) : Except GoError Raw :=
  if buf.length < 2 then .error (.other (str "No packet op code")) else
  match readUint16 (buf.take 2) with
  | .error err => .error err
  | .ok op =>
    if op = OpRead then
      match readRWPacket (buf.drop 2) with
      | .error err => .error err
      | .ok (file, mode) => .ok (.read ⟨file, mode⟩)
    else if op = OpWrite then
      match readRWPacket (buf.drop 2) with
      | .error err => .error err
      | .ok (file, mode) => .ok (.write ⟨file, mode⟩)
    else if op = OpData then
      if buf.length < 4 then .error (.other (str "No data block number")) else
      match readUint16 ((buf.take 4).drop 2) with
      | .error err => .error err
      | .ok block => .ok (.data ⟨block, buf.drop 4⟩)
    else if op = OpAck then
      if buf.length < 4 then .error (.other (str "No ack block number")) else
      match readUint16 ((buf.take 4).drop 2) with
      | .error err => .error err
      | .ok block => .ok (.ack ⟨block⟩)
    else if op = OpErr then
      if buf.length < 4 then .error (.other (str "No error code")) else
      match readUint16 ((buf.take 4).drop 2) with
      | .error err => .error err
      | .ok code => .ok (.err ⟨code, TrimSuffix (buf.drop 4) [0]⟩)
    else .error (.other (str "Invalid op code"))

/-! ## storage.go -/

/-- The interface `Storage`, over a store state of type `σ`: `Put` returns
the new state and its error (`none` is Go's `nil`), `Get` the bytes or an
error. -/
structure Storage (σ : Type) where
  Put : σ → GoString → Bytes → σ × Option GoError
  Get : σ → GoString → Except GoError Bytes

/-- The struct `MemStore`: its map from file name to content (the mutex only
serialises the accesses). -/
structure MemStore where
  store : GoString → Option Bytes

def NewMemStore : MemStore := ⟨fun _ => none⟩

def MemStore.Put (m : MemStore) (file : GoString) (data : Bytes) : MemStore × Option GoError :=
  (⟨fun k => if k = file then some data else m.store k⟩, none)

def MemStore.Get (m : MemStore) (file : GoString) : Except GoError Bytes :=
  match m.store file with
  | none => .error (.other (str "File not found."))
  | some data => .ok data

/-- The struct `MemStore` as an implementation of `Storage`. -/
def memStorage : Storage MemStore := ⟨MemStore.Put, MemStore.Get⟩

/-! ## server.go -/

def blockSize : Nat := 512
def maxTimeout : Nat := 5

/-- Outcome of one call of `conn.ReadFrom`: an error, or a datagram and the
address it came from. -/
inductive ReadResult where
  | fail (err : GoError)
  | datagram (addr : Addr) (buf : Bytes)
deriving DecidableEq, Repr

/-- A `net.PacketConn` together with its environment.

* `reads` are the outcomes of the coming `ReadFrom` calls, in order. A run
  that calls `ReadFrom` more often than outcomes are listed has no result in
  the model (`none`): the list says how the peers behave for as long as it
  lasts, nothing is assumed beyond it.
* `wfail i` is the error of the `i`-th `WriteTo` call, `none` when it succeeds.
* `writes` counts the `WriteTo` calls so far.
* `sent` are the datagrams written successfully, oldest first. -/
structure Conn where
  reads : List ReadResult
  wfail : Nat → Option GoError
  writes : Nat
  sent : List (Addr × Bytes)

/-- The method `conn.WriteTo(buf, addr)`. -/
def WriteTo (conn : Conn) (buf : Bytes) (addr : Addr) : Conn × Except GoError Nat :=
  match conn.wfail conn.writes with
  | some err => ({ conn with writes := conn.writes + 1 }, .error err)
  | none => ({ conn with writes := conn.writes + 1, sent := conn.sent ++ [(addr, buf)] }, .ok buf.length)

/-- The method `conn.ReadFrom(b)` for a buffer `b` of `size` bytes: a datagram
longer than the buffer is cut to the buffer's size. -/
def ReadFrom (conn : Conn) (size : Nat) : Option (Conn × ReadResult) :=
  match conn.reads with
  | [] => none
  | .fail err :: rest => some ({ conn with reads := rest }, .fail err)
  | .datagram addr buf :: rest => some ({ conn with reads := rest }, .datagram addr (buf.take size))

def Send (conn : Conn) (tid : Addr) (packet : Packet) : Conn × Except GoError Nat :=
  match packet.Bytes with
  | .error err => (conn, .error err)
  | .ok buf =>
    match WriteTo conn buf tid with
    | (conn, .error err) => (conn, .error err)
    | (conn, .ok n) => (conn, .ok n)

def Recv (conn : Conn) (tid : Addr) : Option (Conn × Except GoError Raw) :=
  match ReadFrom conn 1024 with
  | none => none
  | some (conn, .fail err) => some (conn, .error err)
  | some (conn, .datagram addr buf) =>
    if addr.String ≠ tid.String then
      some (conn, .error (.tid ⟨addr, str "Unknown transfer ID"⟩))
    else
      match MakePacket buf with
      | .error err => some (conn, .error err)
      | .ok raw => some (conn, .ok raw)

/-- The loop of `Transmit`, with the counter `try` of the source as
`try_`. One turn of the loop calls `ReadFrom` once, so `fuel` turns are
enough as soon as `fuel` exceeds the number of listed outcomes. The result
is the pair `(interface{}, error)` that the source returns. -/
def transmitLoop (tid : Addr) (packet : Packet) : Nat → Conn → Nat → Option (Conn × Raw × Option GoError)
  | 0, _, _ => none
  | fuel + 1, conn, try_ =>
    match Send conn tid packet with
    | (conn, .error err) => some (conn, .err ⟨0, str "Failed to send packet"⟩, some err)
    | (conn, .ok _) =>
      match Recv conn tid with
      | none => none
      | some (conn, .error (.timeout msg)) =>
        if try_ + 1 ≥ maxTimeout then
          some (conn, .err ⟨0, str "Connection timed out"⟩, some (.timeout msg))
        else transmitLoop tid packet fuel conn (try_ + 1)
      | some (conn, .error (.tid terr)) =>
        transmitLoop tid packet fuel (Send conn terr.Tid (.err ⟨5, str "Unknown transfer ID"⟩)).1 try_
      | some (conn, .error (.other msg)) =>
        some (conn, .err ⟨0, (GoError.other msg).Error⟩, some (.other msg))
      | some (conn, .ok raw) => some (conn, raw, none)

def Transmit (conn : Conn) (tid : Addr) (packet : Packet) : Option (Conn × Raw × Option GoError) :=
  transmitLoop tid packet (conn.reads.length + 1) conn 0

/-- How a handler ended: it returned, or a type assertion `raw.(ErrPacket)`
panicked. -/
inductive Exit where
  | returned
  | panicked
deriving DecidableEq, Repr

/-- How the receive loop of `HandleWrite` ended: `reading` became false with
the block number and the buffer reached, or the handler returned or
panicked inside the loop. -/
inductive WriteExit where
  | done (blk : Nat) (dat : Bytes)
  | stop (e : Exit)
deriving DecidableEq, Repr

/-- The loop `for reading := true; reading == true; { ... }` of `HandleWrite`.
A turn that goes on to the next one has consumed a receive outcome. -/
def writeLoop (tid : Addr) : Nat → Conn → Nat → Bytes → Option (Conn × WriteExit)
  | 0, _, _, _ => none
  | fuel + 1, conn, blk, dat =>
    match Transmit conn tid (.ack ⟨blk⟩) with
    | none => none
    | some (conn, raw, some _) =>
      match raw with
      | .err ep => some ((Send conn tid (.err ep)).1, .stop .returned)
      | _ => some (conn, .stop .panicked)
    | some (conn, raw, none) =>
      match raw with
      | .data packet =>
        let blk1 := if packet.Block = (blk + 1) % 65536 then packet.Block else blk
        let dat1 := if packet.Block = (blk + 1) % 65536 then dat ++ packet.Data else dat
        if packet.Data.length < blockSize then some (conn, .done blk1 dat1)
        else writeLoop tid fuel conn blk1 dat1
      | .err _ => some (conn, .stop .returned)
      | _ => some ((Send conn tid (.err ⟨0, str "Invalid packet op"⟩)).1, .stop .returned)

def HandleWrite {σ : Type} (conn : Conn) (tid : Addr) (wp : WritePacket) (S : Storage σ) (store : σ) :
    Option (Conn × σ × Exit) :=
  match writeLoop tid (conn.reads.length + 1) conn 0 [] with
  | none => none
  | some (conn, .stop e) => some (conn, store, e)
  | some (conn, .done blk dat) =>
    match S.Put store wp.File dat with
    | (store, some _) => some ((Send conn tid (.err ⟨0, str "Unable to put file"⟩)).1, store, .returned)
    | (store, none) =>
      match Send conn tid (.ack ⟨blk⟩) with
      | (conn, .error _) =>
        some ((Send conn tid (.err ⟨0, str "Failed to write final ACK"⟩)).1, store, .returned)
      | (conn, .ok _) => some (conn, store, .returned)

def min (a : Nat) (b : Nat) : Nat := if a < b then a else b

/-- The loop `for pos < len(dat) { ... }` of `HandleRead`. -/
def readLoop (tid : Addr) (dat : Bytes) : Nat → Conn → Nat → Nat → Option (Conn × Exit)
  | 0, _, _, _ => none
  | fuel + 1, conn, pos, blk =>
    if pos < dat.length then
      let chunk := min (pos + blockSize) dat.length
      match Transmit conn tid (.data ⟨blk, (dat.take chunk).drop pos⟩) with
      | none => none
      | some (conn, raw, some _) =>
        match raw with
        | .err ep => some ((Send conn tid (.err ep)).1, .returned)
        | _ => some (conn, .panicked)
      | some (conn, raw, none) =>
        match raw with
        | .ack packet =>
          if blk = packet.Block then readLoop tid dat fuel conn chunk ((blk + 1) % 65536)
          else readLoop tid dat fuel conn pos blk
        | .err _ => some (conn, .returned)
        | _ => some ((Send conn tid (.err ⟨0, str "Incorrect packet op"⟩)).1, .returned)
    else some (conn, .returned)

def HandleRead {σ : Type} (conn : Conn) (tid : Addr) (rp : ReadPacket) (S : Storage σ) (store : σ) :
    Option (Conn × Exit) :=
  match S.Get store rp.File with
  | .error _ => some ((Send conn tid (.err ⟨1, str "File does not exist"⟩)).1, .returned)
  | .ok dat => readLoop tid dat (conn.reads.length + 1) conn 0 1

/-! ## Vocabulary of the statements -/

/-- No call of `WriteTo` fails on this connection. -/
def Conn.noWriteFailure (conn : Conn) : Prop := ∀ i, conn.wfail i = none

/-- The connection once the receive outcomes before `rest` are consumed and
the datagrams `out` have been written, all with success. -/
def Conn.after (conn : Conn) (rest : List ReadResult) (out : List (Addr × Bytes)) : Conn :=
  { reads := rest, wfail := conn.wfail, writes := conn.writes + out.length, sent := conn.sent ++ out }

/-- The receive outcomes after which `Transmit` goes round its loop again: a
timeout, a `TidError`, a datagram from an address whose string is not the
expected one. -/
def retryOutcome (tid : Addr) : ReadResult → Bool
  | .fail (.timeout _) => true
  | .fail (.tid _) => true
  | .fail (.other _) => false
  | .datagram addr _ => decide (addr.String ≠ tid.String)

/-- Number of timeouts among receive outcomes. -/
def countTimeouts : List ReadResult → Nat
  | [] => 0
  | .fail (.timeout _) :: rs => countTimeouts rs + 1
  | _ :: rs => countTimeouts rs

/-- What `Transmit` writes while it meets the retry outcomes `rs`: before each
receive the packet `buf` to `tid`, and after a wrong transfer ID the error
packet `e5` to the address the datagram came from. -/
def retrySent (tid : Addr) (buf e5 : Bytes) : List ReadResult → List (Addr × Bytes)
  | [] => []
  | .fail (.tid t) :: rs => (tid, buf) :: (t.Tid, e5) :: retrySent tid buf e5 rs
  | .datagram addr _ :: rs => (tid, buf) :: (addr, e5) :: retrySent tid buf e5 rs
  | .fail _ :: rs => (tid, buf) :: retrySent tid buf e5 rs

/-- The datagrams of a client that uploads `payloads` in order from `src`:
Data packets numbered `first + 1`, `first + 2`, and so on, in wire layout. -/
def uploadDatagrams (src : Addr) (first : Nat) (payloads : List Bytes) : List ReadResult :=
  (payloads.enumFrom first).map
    (fun p => .datagram src ([0, 3, (p.1 + 1) / 256, (p.1 + 1) % 256] ++ p.2))

/-- The Ack packets for the `n` blocks from `first` on, written to `tid`, in
wire layout. -/
def ackSends (tid : Addr) (first n : Nat) : List (Addr × Bytes) :=
  (List.range' first n).map (fun k => (tid, [0, 4, k / 256, k % 256]))

/-- The payload of the Data block with index `j` (counted from 0) of a file:
`dat[512*j : min(512*(j+1), len(dat))]`. -/
def chunkOf (dat : Bytes) (j : Nat) : Bytes :=
  (dat.take (min (512 * (j + 1)) dat.length)).drop (512 * j)

/-- The datagrams of a client that downloads and acknowledges each block with
its own number: Acks numbered `(j + 1) mod 65536` for the `n` indices `j`
from `first` on, all from `src`, in wire layout. -/
def ackDatagrams (src : Addr) (first n : Nat) : List ReadResult :=
  (List.range' first n).map
    (fun j => .datagram src [0, 4, (j + 1) % 65536 / 256, (j + 1) % 65536 % 256])

/-- The Data packets of a file for the `n` indices `j` from `first` on, written
to `tid`: block number `(j + 1) mod 65536` and payload `chunkOf dat j`, in
wire layout. -/
def dataSends (tid : Addr) (dat : Bytes) (first n : Nat) : List (Addr × Bytes) :=
  (List.range' first n).map
    (fun j => (tid, [0, 3, (j + 1) % 65536 / 256, (j + 1) % 65536 % 256] ++ chunkOf dat j))

/-- The datagrams of a client that sends from `src` the Data packets with the
listed block numbers and payloads, in wire layout. -/
def blockDatagrams (src : Addr) (blocks : List (Nat × Bytes)) : List ReadResult :=
  blocks.map (fun p => .datagram src ([0, 3, p.1 / 256, p.1 % 256] ++ p.2))

/-- The payload that the loop of `HandleRead` sends at position `pos` of the
file: `dat[pos : min(pos + 512, len(dat))]`. -/
abbrev payloadAt (dat : Bytes) (pos : Nat) : Bytes :=
  (dat.take (min (pos + blockSize) dat.length)).drop pos

/-- Silence of the peers: as many timeouts in a row as one call of `Transmit`
allows. -/
def silence (m : GoString) : List ReadResult :=
  List.replicate maxTimeout (.fail (.timeout m))

/-! ## Sample values -/

/-- The expected remote address of the tests of the repository. -/
def sampleTid : Addr := ⟨str "udp", str ":70"⟩

/-- Another address. -/
def sampleOther : Addr := ⟨str "udp", str ":71"⟩

/-- A connection on which no write fails and nothing was written yet, with
the given receive outcomes. -/
def sampleConn (reads : List ReadResult) : Conn := ⟨reads, fun _ => none, 0, []⟩

/-- The encoding of the Error packet that answers a wrong transfer ID. -/
def sampleErr5 : Bytes := [0, 5, 0, 5] ++ str "Unknown transfer ID" ++ [0]

/-- A connection on which the expected address sends Data block 5 with 512
payload bytes, after which the peers are silent. -/
def sampleMismatch : Conn :=
  sampleConn (.datagram sampleTid ([0, 3, 0, 5] ++ List.replicate 512 7) :: silence [1])

/-- A connection on which the expected address sends Ack(7), after which the
peers are silent. -/
def sampleAck7 : Conn := sampleConn (.datagram sampleTid [0, 4, 0, 7] :: silence [1])

/-- A connection on which the expected address sends Ack(65535), after which
the peers are silent. -/
def sampleAckMax : Conn := sampleConn (.datagram sampleTid [0, 4, 255, 255] :: silence [1])

/-- Four timeouts with two datagrams from another address in between. -/
def sampleRetries : List ReadResult :=
  [.fail (.timeout [1]), .datagram sampleOther [], .fail (.timeout [2]), .fail (.timeout [3]),
    .datagram sampleOther [9], .fail (.timeout [4])]

/-! ## Codec: helper lemmas -/

theorem writeUint16_of_lt {v : Nat} (h : v < 65536) : writeUint16 v = [v / 256, v % 256] := by
  have : v / 256 % 256 = v / 256 := Nat.mod_eq_of_lt (by omega)
  simp [writeUint16, this]

theorem readUint16_writeUint16 {v : Nat} (h : v < 65536) (rest : Bytes) :
    readUint16 (writeUint16 v ++ rest) = .ok v := by
  have : v / 256 % 256 * 256 + v % 256 = v := by omega
  simp [writeUint16, readUint16, this]

theorem IndexByte_eq_none {s : Bytes} {c : Nat} (h : c ∉ s) : IndexByte s c = none := by
  induction s with
  | nil => rfl
  | cons b bs ih =>
    have hb : ¬ b = c := fun e => h (by simp [e])
    have hbs : c ∉ bs := fun e => h (by simp [e])
    simp [IndexByte, hb, ih hbs]

theorem IndexByte_append {f : Bytes} {c : Nat} (h : c ∉ f) (rest : Bytes) :
    IndexByte (f ++ c :: rest) c = some f.length := by
  induction f with
  | nil => simp [IndexByte]
  | cons b bs ih =>
    have hb : ¬ b = c := fun e => h (by simp [e])
    have hbs : c ∉ bs := fun e => h (by simp [e])
    simp [IndexByte, hb, ih hbs]

theorem genSplit_cut {f : Bytes} {c : Nat} (h : c ∉ f) (rest : Bytes) (k : Nat) :
    genSplit (f ++ c :: rest) c (k + 1) = f :: genSplit rest c k := by
  simp [genSplit, IndexByte_append h]

theorem genSplit_none {s : Bytes} {c : Nat} (h : c ∉ s) (k : Nat) : genSplit s c k = [s] := by
  cases k with
  | zero => rfl
  | succ k => simp [genSplit, IndexByte_eq_none h]

theorem readRWPacket_ok {f m : Bytes} (hf : 0 ∉ f) (hm : 0 ∉ m) (rest : Bytes) :
    readRWPacket (f ++ 0 :: (m ++ 0 :: rest)) = .ok (f, m) := by
  have h : SplitN (f ++ 0 :: (m ++ 0 :: rest)) 0 3 = [f, m, rest] := by
    show genSplit (f ++ 0 :: (m ++ 0 :: rest)) 0 (1 + 1) = [f, m, rest]
    rw [genSplit_cut hf, genSplit_cut hm]
    rfl
  simp [readRWPacket, h]

theorem readRWPacket_no_null {s : Bytes} (h : 0 ∉ s) :
    readRWPacket s = .error (.other (str "Malformed packet")) := by
  have h1 : SplitN s 0 3 = [s] := genSplit_none h 2
  simp [readRWPacket, h1]

theorem readRWPacket_one_null {f t : Bytes} (hf : 0 ∉ f) (ht : 0 ∉ t) :
    readRWPacket (f ++ 0 :: t) = .error (.other (str "Malformed packet")) := by
  have h : SplitN (f ++ 0 :: t) 0 3 = [f, t] := by
    show genSplit (f ++ 0 :: t) 0 (1 + 1) = [f, t]
    rw [genSplit_cut hf, genSplit_none ht]
  simp [readRWPacket, h]

/-- The function `readRWPacket` fails exactly on the bodies with fewer than two
null bytes. -/
theorem readRWPacket_error_iff (s : Bytes) :
    (∃ err, readRWPacket s = .error err) ↔ s.count 0 < 2 := by
  by_cases h0 : 0 ∈ s
  · obtain ⟨f, t, rfl, hf⟩ := List.eq_append_cons_of_mem h0
    by_cases h1 : 0 ∈ t
    · obtain ⟨m, rest, rfl, hm⟩ := List.eq_append_cons_of_mem h1
      rw [readRWPacket_ok hf hm]
      simp [List.count_append, List.count_cons]
      omega
    · rw [readRWPacket_one_null hf h1]
      simp [List.count_append, List.count_cons, List.count_eq_zero.2 hf, List.count_eq_zero.2 h1]
  · rw [readRWPacket_no_null h0]
    simp [List.count_eq_zero.2 h0]

theorem MakePacket_request (hi lo : Nat) (body : Bytes) :
    MakePacket (hi :: lo :: body) =
      if hi * 256 + lo = OpRead then
        match readRWPacket body with
        | .error err => .error err
        | .ok (file, mode) => .ok (.read ⟨file, mode⟩)
      else if hi * 256 + lo = OpWrite then
        match readRWPacket body with
        | .error err => .error err
        | .ok (file, mode) => .ok (.write ⟨file, mode⟩)
      else MakePacket (hi :: lo :: body) := by
  by_cases h1 : hi * 256 + lo = OpRead
  · simp [MakePacket, readUint16, h1]
  · by_cases h2 : hi * 256 + lo = OpWrite
    · simp [MakePacket, readUint16, h2, OpRead, OpWrite]
    · simp [h1, h2]

theorem MakePacket_data {b : Nat} (h : b < 65536) (d : Bytes) :
    MakePacket (writeUint16 OpData ++ writeUint16 b ++ d) = .ok (.data ⟨b, d⟩) := by
  have : b / 256 % 256 * 256 + b % 256 = b := by omega
  simp [MakePacket, writeUint16, readUint16, OpData, OpRead, OpWrite, this]
  rw [if_neg (by omega), if_neg (by omega)]

theorem MakePacket_ack {b : Nat} (h : b < 65536) :
    MakePacket (writeUint16 OpAck ++ writeUint16 b) = .ok (.ack ⟨b⟩) := by
  have : b / 256 % 256 * 256 + b % 256 = b := by omega
  simp [MakePacket, writeUint16, readUint16, OpData, OpAck, OpRead, OpWrite, this]

theorem TrimSuffix_append_null (m : Bytes) : TrimSuffix (m ++ [0]) [0] = m := by
  simp [TrimSuffix]

theorem MakePacket_err {c : Nat} (h : c < 65536) (m : Bytes) :
    MakePacket (writeUint16 OpErr ++ writeUint16 c ++ (m ++ [0])) = .ok (.err ⟨c, m⟩) := by
  have : c / 256 % 256 * 256 + c % 256 = c := by omega
  have ht := TrimSuffix_append_null m
  simp [MakePacket, writeUint16, readUint16, OpData, OpAck, OpErr, OpRead, OpWrite, this]
  rw [if_neg (by omega), if_neg (by omega), ht]

/-! ## Codec: claims -/

/-- C1: for every Data, Ack and Error packet with valid field values (16-bit
block or code, error message without null byte, any payload), `Bytes`
succeeds and `MakePacket` of the encoding succeeds and returns the same
variant with the same field values. -/
theorem codec_round_trip (p : Packet) (hp : p.wellFormed) :
    ∃ buf, p.Bytes = .ok buf ∧ MakePacket buf = .ok p.toRaw := by
  cases p with
  | data dp => exact ⟨_, rfl, MakePacket_data hp dp.Data⟩
  | ack ap => exact ⟨_, rfl, MakePacket_ack hp⟩
  | err ep => exact ⟨_, rfl, MakePacket_err hp.1 ep.ErrMsg⟩

theorem codec_round_trip_witness :
    ∃ buf, (Packet.err ⟨258, [65, 66, 67]⟩).Bytes = .ok buf ∧
      MakePacket buf = .ok (Raw.err ⟨258, [65, 66, 67]⟩) :=
  codec_round_trip (.err ⟨258, [65, 66, 67]⟩) (by simp [Packet.wellFormed])

/-- C2 as stated fails: the body `A\0B\0C` of a read request has a byte after
its second null byte, it is not of the form filename, null, mode, null, and
`MakePacket` accepts it. -/
theorem request_trailing_bytes_accepted :
    ¬ (∀ hi lo : Nat, ∀ body : Bytes, hi * 256 + lo = 1 ∨ hi * 256 + lo = 2 →
        (¬ ∃ f m : Bytes, 0 ∉ f ∧ 0 ∉ m ∧ body = f ++ [0] ++ m ++ [0]) →
        ∃ err, MakePacket (hi :: lo :: body) = .error err) := by
  intro h
  have hbody : ¬ ∃ f m : Bytes, 0 ∉ f ∧ 0 ∉ m ∧ [65, 0, 66, 0, 67] = f ++ [0] ++ m ++ [0] := by
    rintro ⟨f, m, -, -, e⟩
    have := congrArg List.reverse e
    simp at this
  obtain ⟨err, he⟩ := h 0 1 [65, 0, 66, 0, 67] (by decide) hbody
  have hok : MakePacket [0, 1, 65, 0, 66, 0, 67] = .ok (.read ⟨[65], [66]⟩) := by decide
  rw [hok] at he
  cases he

/-- C2, amended: for every buffer whose opcode is 1 or 2, `MakePacket` returns
an error exactly when the body after the opcode has fewer than two null
bytes; a body filename, null, mode, null followed by any bytes decodes to
the request with that filename and mode. -/
theorem request_rejected_iff (hi lo : Nat) (body : Bytes)
    (hop : hi * 256 + lo = 1 ∨ hi * 256 + lo = 2) :
    ((∃ err, MakePacket (hi :: lo :: body) = .error err) ↔ body.count 0 < 2) ∧
    (∀ f m rest : Bytes, 0 ∉ f → 0 ∉ m → body = f ++ [0] ++ m ++ [0] ++ rest →
      MakePacket (hi :: lo :: body) =
        .ok (if hi * 256 + lo = 1 then Raw.read ⟨f, m⟩ else Raw.write ⟨f, m⟩)) := by
  constructor
  · rw [← readRWPacket_error_iff, MakePacket_request]
    rcases hop with h | h <;> simp only [h, OpRead, OpWrite] <;>
      cases readRWPacket body <;> simp
  · intro f m rest hf hm hb
    have hrw : readRWPacket body = .ok (f, m) := by
      rw [hb]
      simpa using readRWPacket_ok hf hm rest
    rw [MakePacket_request]
    rcases hop with h | h <;> simp [h, OpRead, OpWrite, hrw]

theorem request_rejected_iff_witness :
    ((∃ err, MakePacket (0 :: 2 :: [65, 0, 66, 0, 67]) = .error err) ↔
        ([65, 0, 66, 0, 67] : Bytes).count 0 < 2) ∧
    (∀ f m rest : Bytes, 0 ∉ f → 0 ∉ m → [65, 0, 66, 0, 67] = f ++ [0] ++ m ++ [0] ++ rest →
      MakePacket (0 :: 2 :: [65, 0, 66, 0, 67]) =
        .ok (if 0 * 256 + 2 = 1 then Raw.read ⟨f, m⟩ else Raw.write ⟨f, m⟩)) :=
  request_rejected_iff 0 2 [65, 0, 66, 0, 67] (by decide)

/-- C3: encoding never fails and gives the wire layout with big-endian 16-bit
integers: Ack is `[0,4,b/256,b%256]`, Data is `[0,3,b/256,b%256] ++ d`,
Error is `[0,5,c/256,c%256] ++ m ++ [0]`, of lengths 4, `4 + len d` and
`5 + len m`. -/
theorem encoding_layout (b c : Nat) (d : Bytes) (m : GoString) (hb : b < 65536) (hc : c < 65536) :
    (AckPacket.mk b).Bytes = .ok [0, 4, b / 256, b % 256] ∧
    (DataPacket.mk b d).Bytes = .ok ([0, 3, b / 256, b % 256] ++ d) ∧
    (ErrPacket.mk c m).Bytes = .ok ([0, 5, c / 256, c % 256] ++ m ++ [0]) ∧
    ([0, 4, b / 256, b % 256] : Bytes).length = 4 ∧
    ([0, 3, b / 256, b % 256] ++ d).length = 4 + d.length ∧
    ([0, 5, c / 256, c % 256] ++ m ++ [0]).length = 5 + m.length := by
  refine ⟨?_, ?_, ?_, rfl, ?_, ?_⟩
  · rw [AckPacket.Bytes, writeUint16_of_lt hb]; rfl
  · rw [DataPacket.Bytes, writeUint16_of_lt hb]; rfl
  · rw [ErrPacket.Bytes, writeUint16_of_lt hc]
    simp [writeUint16, OpErr]
  · simp; omega
  · simp; omega

theorem encoding_layout_witness :
    (AckPacket.mk 3).Bytes = .ok [0, 4, 3 / 256, 3 % 256] ∧
    (DataPacket.mk 3 [65, 66, 67]).Bytes = .ok ([0, 3, 3 / 256, 3 % 256] ++ [65, 66, 67]) ∧
    (ErrPacket.mk 1 [65, 66, 67]).Bytes = .ok ([0, 5, 1 / 256, 1 % 256] ++ [65, 66, 67] ++ [0]) ∧
    ([0, 4, 3 / 256, 3 % 256] : Bytes).length = 4 ∧
    ([0, 3, 3 / 256, 3 % 256] ++ [65, 66, 67]).length = 4 + ([65, 66, 67] : Bytes).length ∧
    ([0, 5, 1 / 256, 1 % 256] ++ [65, 66, 67] ++ [0]).length = 5 + ([65, 66, 67] : Bytes).length :=
  encoding_layout 3 1 [65, 66, 67] [65, 66, 67] (by decide) (by decide)

/-- C4: `MakePacket` returns an error for every buffer of length 0 or 1, for
every buffer whose first two bytes read as a big-endian opcode outside 1..5,
and for every buffer with opcode 3, 4 or 5 shorter than 4 bytes. -/
theorem short_or_unknown_rejected (buf : Bytes)
    (h : buf.length < 2 ∨
      ∃ hi lo rest, buf = hi :: lo :: rest ∧
        ((hi * 256 + lo < 1 ∨ 5 < hi * 256 + lo) ∨
          (3 ≤ hi * 256 + lo ∧ hi * 256 + lo ≤ 5 ∧ buf.length < 4))) :
    ∃ err, MakePacket buf = .error err := by
  rcases h with h | ⟨hi, lo, rest, rfl, h⟩
  · exact ⟨.other (str "No packet op code"), by simp [MakePacket, h]⟩
  · have hl2 : ¬ rest.length + 1 + 1 < 2 := by omega
    rcases h with h | ⟨h3, h5, hlen⟩
    · have h1 : hi * 256 + lo ≠ 1 := by omega
      have h2 : hi * 256 + lo ≠ 2 := by omega
      have h3 : hi * 256 + lo ≠ 3 := by omega
      have h4 : hi * 256 + lo ≠ 4 := by omega
      have h5 : hi * 256 + lo ≠ 5 := by omega
      exact ⟨.other (str "Invalid op code"),
        by simp [MakePacket, readUint16, OpRead, OpWrite, OpData, OpAck, OpErr, h1, h2, h3, h4, h5, hl2]⟩
    · have h1 : hi * 256 + lo ≠ 1 := by omega
      have h2 : hi * 256 + lo ≠ 2 := by omega
      have hl : rest.length + 1 + 1 < 4 := by simpa using hlen
      have hcases : hi * 256 + lo = 3 ∨ hi * 256 + lo = 4 ∨ hi * 256 + lo = 5 := by omega
      rcases hcases with e | e | e
      · exact ⟨.other (str "No data block number"),
          by simp [MakePacket, readUint16, OpRead, OpWrite, OpData, e, hl, hl2]⟩
      · exact ⟨.other (str "No ack block number"),
          by simp [MakePacket, readUint16, OpRead, OpWrite, OpData, OpAck, e, hl, hl2]⟩
      · exact ⟨.other (str "No error code"),
          by simp [MakePacket, readUint16, OpRead, OpWrite, OpData, OpAck, OpErr, e, hl, hl2]⟩

theorem short_or_unknown_rejected_witness : ∃ err, MakePacket [0, 4, 7] = .error err :=
  short_or_unknown_rejected [0, 4, 7] (Or.inr ⟨0, 4, [7], rfl, Or.inr (by decide)⟩)

/-- C5: for every filename `f` and mode `m` without null byte, `MakePacket`
of `[0,1] ++ f ++ [0] ++ m ++ [0]` is the read request with `f` and `m`, and
of `[0,2] ++ f ++ [0] ++ m ++ [0]` the write request with `f` and `m`. -/
theorem request_decodes (f m : GoString) (hf : 0 ∉ f) (hm : 0 ∉ m) :
    MakePacket ([0, 1] ++ f ++ [0] ++ m ++ [0]) = .ok (.read ⟨f, m⟩) ∧
    MakePacket ([0, 2] ++ f ++ [0] ++ m ++ [0]) = .ok (.write ⟨f, m⟩) := by
  have hrw : readRWPacket (f ++ 0 :: (m ++ [0])) = .ok (f, m) := readRWPacket_ok hf hm []
  have e1 : ([0, 1] ++ f ++ [0] ++ m ++ [0] : Bytes) = 0 :: 1 :: (f ++ 0 :: (m ++ [0])) := by simp
  have e2 : ([0, 2] ++ f ++ [0] ++ m ++ [0] : Bytes) = 0 :: 2 :: (f ++ 0 :: (m ++ [0])) := by simp
  rw [e1, e2]
  constructor
  · rw [MakePacket_request, hrw]
    simp [OpRead]
  · rw [MakePacket_request, hrw]
    simp [OpRead, OpWrite]

theorem request_decodes_witness :
    MakePacket ([0, 1] ++ [65, 66, 67] ++ [0] ++ [68, 69, 70] ++ [0]) =
      .ok (.read ⟨[65, 66, 67], [68, 69, 70]⟩) ∧
    MakePacket ([0, 2] ++ [65, 66, 67] ++ [0] ++ [68, 69, 70] ++ [0]) =
      .ok (.write ⟨[65, 66, 67], [68, 69, 70]⟩) :=
  request_decodes [65, 66, 67] [68, 69, 70] (by decide) (by decide)

/-! ## The fuel of the loops is enough -/

theorem WriteTo_reads (conn : Conn) (buf : Bytes) (addr : Addr) :
    (WriteTo conn buf addr).1.reads = conn.reads := by
  unfold WriteTo
  cases conn.wfail conn.writes <;> rfl

theorem Send_eq (conn : Conn) (tid : Addr) (packet : Packet) :
    Send conn tid packet =
      match packet.Bytes with
      | .error err => (conn, .error err)
      | .ok buf => WriteTo conn buf tid := by
  unfold Send
  cases packet.Bytes with
  | error err => rfl
  | ok buf =>
    simp only
    rcases WriteTo conn buf tid with ⟨c, r⟩
    cases r <;> rfl

theorem Send_reads (conn : Conn) (tid : Addr) (packet : Packet) :
    (Send conn tid packet).1.reads = conn.reads := by
  rw [Send_eq]
  cases packet.Bytes with
  | error err => rfl
  | ok buf => exact WriteTo_reads conn buf tid

theorem Recv_reads {conn conn1 : Conn} {tid : Addr} {r : Except GoError Raw}
    (h : Recv conn tid = some (conn1, r)) : conn1.reads.length + 1 = conn.reads.length := by
  unfold Recv ReadFrom at h
  cases hr : conn.reads with
  | nil => simp [hr] at h
  | cons x rest =>
    rw [hr] at h
    cases x with
    | fail err =>
      simp only [Option.some.injEq, Prod.mk.injEq] at h
      rw [← h.1]; rfl
    | datagram addr d =>
      simp only at h
      split at h
      · simp only [Option.some.injEq, Prod.mk.injEq] at h
        rw [← h.1]; rfl
      · split at h <;>
        · simp only [Option.some.injEq, Prod.mk.injEq] at h
          rw [← h.1]; rfl

/-- More fuel than receive outcomes changes nothing: the loop of `Transmit`
never stops for lack of fuel. -/
theorem transmitLoop_fuel (tid : Addr) (packet : Packet) :
    ∀ (fuel : Nat) (conn : Conn) (try_ : Nat), conn.reads.length < fuel →
      transmitLoop tid packet fuel conn try_ =
        transmitLoop tid packet (conn.reads.length + 1) conn try_ := by
  intro fuel
  induction fuel with
  | zero => intro conn try_ h; omega
  | succ fuel ih =>
    intro conn try_ h
    rw [transmitLoop, transmitLoop]
    rcases hs : Send conn tid packet with ⟨c1, r1⟩
    have hc1 : c1.reads = conn.reads := by
      have := Send_reads conn tid packet
      rw [hs] at this
      exact this
    cases r1 with
    | error err => rfl
    | ok n =>
      simp only
      cases hrecv : Recv c1 tid with
      | none => rfl
      | some p =>
        rcases p with ⟨c2, r2⟩
        have hc2 := Recv_reads hrecv
        rw [hc1] at hc2
        cases r2 with
        | ok raw => rfl
        | error err =>
          cases err with
          | timeout msg =>
            simp only
            split
            · rfl
            · rw [ih c2 _ (by omega), ← hc2]
          | tid t =>
            simp only
            have hc3 := Send_reads c2 t.Tid (.err ⟨5, str "Unknown transfer ID"⟩)
            rw [ih _ _ (by rw [hc3]; omega), hc3, ← hc2]
          | other msg => rfl

/-- A call of the loop of `Transmit` that returns has consumed receive
outcomes, at least one when it returns without failure. -/
theorem transmitLoop_reads (tid : Addr) (packet : Packet) :
    ∀ (fuel : Nat) (conn : Conn) (try_ : Nat) (conn1 : Conn) (raw : Raw) (err : Option GoError),
      transmitLoop tid packet fuel conn try_ = some (conn1, raw, err) →
      conn1.reads.length ≤ conn.reads.length ∧
        (err = none → conn1.reads.length < conn.reads.length) := by
  intro fuel
  induction fuel with
  | zero => intro conn try_ conn1 raw err h; simp [transmitLoop] at h
  | succ fuel ih =>
    intro conn try_ conn1 raw err h
    rw [transmitLoop] at h
    rcases hs : Send conn tid packet with ⟨c1, r1⟩
    have hc1 : c1.reads = conn.reads := by
      have := Send_reads conn tid packet
      rw [hs] at this
      exact this
    rw [hs] at h
    cases r1 with
    | error e =>
      simp only [Option.some.injEq, Prod.mk.injEq] at h
      obtain ⟨rfl, -, rfl⟩ := h
      simp [hc1]
    | ok n =>
      simp only at h
      cases hrecv : Recv c1 tid with
      | none => simp [hrecv] at h
      | some p =>
        rcases p with ⟨c2, r2⟩
        have hc2 := Recv_reads hrecv
        rw [hc1] at hc2
        rw [hrecv] at h
        cases r2 with
        | ok raw2 =>
          simp only [Option.some.injEq, Prod.mk.injEq] at h
          obtain ⟨rfl, -, rfl⟩ := h
          exact ⟨by omega, fun _ => by omega⟩
        | error e =>
          cases e with
          | timeout msg =>
            simp only at h
            split at h
            · simp only [Option.some.injEq, Prod.mk.injEq] at h
              obtain ⟨rfl, -, rfl⟩ := h
              exact ⟨by omega, fun h => by cases h⟩
            · have := ih _ _ _ _ _ h
              exact ⟨by omega, fun h => by have := this.2 h; omega⟩
          | tid t =>
            simp only at h
            have hc3 := Send_reads c2 t.Tid (.err ⟨5, str "Unknown transfer ID"⟩)
            have := ih _ _ _ _ _ h
            rw [hc3] at this
            exact ⟨by omega, fun h => by have := this.2 h; omega⟩
          | other msg =>
            simp only [Option.some.injEq, Prod.mk.injEq] at h
            obtain ⟨rfl, -, rfl⟩ := h
            exact ⟨by omega, fun h => by cases h⟩

theorem Transmit_reads {conn conn1 : Conn} {tid : Addr} {packet : Packet} {raw : Raw}
    (h : Transmit conn tid packet = some (conn1, raw, none)) :
    conn1.reads.length < conn.reads.length :=
  (transmitLoop_reads tid packet _ conn 0 conn1 raw none h).2 rfl

/-- The receive loop of `HandleWrite` never stops for lack of fuel: any two
amounts of fuel above the number of receive outcomes give the same result. -/
theorem writeLoop_fuel (tid : Addr) :
    ∀ (fuel1 fuel2 : Nat) (conn : Conn) (blk : Nat) (dat : Bytes),
      conn.reads.length < fuel1 → conn.reads.length < fuel2 →
      writeLoop tid fuel1 conn blk dat = writeLoop tid fuel2 conn blk dat := by
  intro fuel1
  induction fuel1 with
  | zero => intro fuel2 conn blk dat h; omega
  | succ fuel1 ih =>
    intro fuel2 conn blk dat h1 h2
    obtain ⟨fuel2, rfl⟩ : ∃ f, fuel2 = f + 1 := ⟨fuel2 - 1, by omega⟩
    rw [writeLoop, writeLoop]
    cases hT : Transmit conn tid (.ack ⟨blk⟩) with
    | none => rfl
    | some p =>
      rcases p with ⟨c1, raw, err⟩
      cases err with
      | some e => rfl
      | none =>
        have hlt := Transmit_reads hT
        cases raw with
        | data packet =>
          simp only
          split
          · rfl
          · exact ih _ _ _ _ (by omega) (by omega)
        | _ => rfl

/-- The loop of `HandleRead` never stops for lack of fuel. -/
theorem readLoop_fuel (tid : Addr) (dat : Bytes) :
    ∀ (fuel1 fuel2 : Nat) (conn : Conn) (pos blk : Nat),
      conn.reads.length < fuel1 → conn.reads.length < fuel2 →
      readLoop tid dat fuel1 conn pos blk = readLoop tid dat fuel2 conn pos blk := by
  intro fuel1
  induction fuel1 with
  | zero => intro fuel2 conn pos blk h; omega
  | succ fuel1 ih =>
    intro fuel2 conn pos blk h1 h2
    obtain ⟨fuel2, rfl⟩ : ∃ f, fuel2 = f + 1 := ⟨fuel2 - 1, by omega⟩
    rw [readLoop, readLoop]
    split
    · simp only
      cases hT : Transmit conn tid
          (.data ⟨blk, (dat.take (min (pos + blockSize) dat.length)).drop pos⟩) with
      | none => rfl
      | some p =>
        rcases p with ⟨c1, raw, err⟩
        cases err with
        | some e => rfl
        | none =>
          have hlt := Transmit_reads hT
          cases raw with
          | ack packet =>
            simp only
            split
            · exact ih _ _ _ _ (by omega) (by omega)
            · exact ih _ _ _ _ (by omega) (by omega)
          | _ => rfl
    · rfl

/-! ## Transmit: helper lemmas -/

theorem Conn.after_after (conn : Conn) (r1 r2 : List ReadResult) (o1 o2 : List (Addr × Bytes)) :
    (conn.after r1 o1).after r2 o2 = conn.after r2 (o1 ++ o2) := by
  simp [Conn.after, Nat.add_assoc]

theorem Conn.after_self (conn : Conn) : conn.after conn.reads [] = conn := by
  simp [Conn.after]

theorem Conn.noWriteFailure_after {conn : Conn} (hw : conn.noWriteFailure) (rest : List ReadResult)
    (out : List (Addr × Bytes)) : (conn.after rest out).noWriteFailure := hw

theorem Packet.Bytes_ok (p : Packet) : ∃ buf, p.Bytes = .ok buf := by
  cases p <;> exact ⟨_, rfl⟩

theorem Send_ok {conn : Conn} (hw : conn.noWriteFailure) (tid : Addr) {packet : Packet} {buf : Bytes}
    (hb : packet.Bytes = .ok buf) :
    Send conn tid packet = (conn.after conn.reads [(tid, buf)], .ok buf.length) := by
  simp [Send, hb, WriteTo, hw conn.writes, Conn.after]

theorem readUint16_error_other {rdr : Bytes} {err : GoError} (h : readUint16 rdr = .error err) :
    ∃ msg, err = .other msg := by
  unfold readUint16 at h
  split at h <;> first | (cases h; exact ⟨_, rfl⟩) | (simp at h)

theorem readRWPacket_error_other {buf : Bytes} {err : GoError} (h : readRWPacket buf = .error err) :
    ∃ msg, err = .other msg := by
  unfold readRWPacket at h
  split at h <;> first | (cases h; exact ⟨_, rfl⟩) | (simp at h)

/-- Every error of `MakePacket` is a plain error: not a timeout, not a
`TidError`. -/
theorem MakePacket_error_other {buf : Bytes} {err : GoError} (h : MakePacket buf = .error err) :
    ∃ msg, err = .other msg := by
  unfold MakePacket at h
  repeat' split at h
  all_goals first
    | (cases h; exact ⟨_, rfl⟩)
    | (simp at h; done)
    | (simp only [Except.error.injEq] at h; subst h; first
        | exact readUint16_error_other (by assumption)
        | exact readRWPacket_error_other (by assumption))

section TransmitSteps

variable {conn : Conn} {tid : Addr} {packet : Packet} {buf : Bytes}

/-- One turn of the loop of `Transmit` that ends in a timeout below the bound. -/
theorem transmitLoop_timeout_retry (hw : conn.noWriteFailure) (hb : packet.Bytes = .ok buf)
    {m : GoString} {rest : List ReadResult} (hr : conn.reads = .fail (.timeout m) :: rest)
    (fuel : Nat) {try_ : Nat} (ht : try_ + 1 < maxTimeout) :
    transmitLoop tid packet (fuel + 1) conn try_ =
      transmitLoop tid packet fuel (conn.after rest [(tid, buf)]) (try_ + 1) := by
  have ht1 : ¬ maxTimeout ≤ try_ + 1 := by omega
  rw [transmitLoop, Send_ok hw tid hb]
  simp [Recv, ReadFrom, Conn.after, hr, ht1]

/-- One turn of the loop of `Transmit` that ends in the timeout reaching the
bound. -/
theorem transmitLoop_timeout_last (hw : conn.noWriteFailure) (hb : packet.Bytes = .ok buf)
    {m : GoString} {rest : List ReadResult} (hr : conn.reads = .fail (.timeout m) :: rest)
    (fuel : Nat) {try_ : Nat} (ht : maxTimeout ≤ try_ + 1) :
    transmitLoop tid packet (fuel + 1) conn try_ =
      some (conn.after rest [(tid, buf)], .err ⟨0, str "Connection timed out"⟩, some (.timeout m)) := by
  rw [transmitLoop, Send_ok hw tid hb]
  simp [Recv, ReadFrom, Conn.after, hr, ht]

/-- One turn of the loop of `Transmit` whose receive fails with a `TidError`. -/
theorem transmitLoop_tidError (hw : conn.noWriteFailure) (hb : packet.Bytes = .ok buf)
    {e5 : Bytes} (he5 : (Packet.err ⟨5, str "Unknown transfer ID"⟩).Bytes = .ok e5)
    {t : TidError} {rest : List ReadResult} (hr : conn.reads = .fail (.tid t) :: rest)
    (fuel : Nat) (try_ : Nat) :
    transmitLoop tid packet (fuel + 1) conn try_ =
      transmitLoop tid packet fuel (conn.after rest [(tid, buf), (t.Tid, e5)]) try_ := by
  have hw1 : (conn.after rest [(tid, buf)]).noWriteFailure := hw
  have hs := Send_ok hw1 t.Tid he5
  rw [transmitLoop, Send_ok hw tid hb]
  simp only [Recv, ReadFrom, Conn.after, hr] at hs ⊢
  simp only [hs]
  simp [Nat.add_assoc]

/-- One turn of the loop of `Transmit` that receives a datagram from an
address whose string is not the expected one. -/
theorem transmitLoop_wrong_addr (hw : conn.noWriteFailure) (hb : packet.Bytes = .ok buf)
    {e5 : Bytes} (he5 : (Packet.err ⟨5, str "Unknown transfer ID"⟩).Bytes = .ok e5)
    {addr : Addr} {d : Bytes} {rest : List ReadResult}
    (hr : conn.reads = .datagram addr d :: rest) (ha : addr.String ≠ tid.String)
    (fuel : Nat) (try_ : Nat) :
    transmitLoop tid packet (fuel + 1) conn try_ =
      transmitLoop tid packet fuel (conn.after rest [(tid, buf), (addr, e5)]) try_ := by
  have hw1 : (conn.after rest [(tid, buf)]).noWriteFailure := hw
  have hs := Send_ok hw1 addr he5
  rw [transmitLoop, Send_ok hw tid hb]
  simp only [Recv, ReadFrom, Conn.after, hr] at hs ⊢
  simp only [ne_eq, ha, not_false_eq_true, ↓reduceIte, hs]
  simp [Nat.add_assoc]

/-- One turn of the loop of `Transmit` whose receive fails with a plain error. -/
theorem transmitLoop_read_error (hw : conn.noWriteFailure) (hb : packet.Bytes = .ok buf)
    {msg : GoString} {rest : List ReadResult} (hr : conn.reads = .fail (.other msg) :: rest)
    (fuel : Nat) (try_ : Nat) :
    transmitLoop tid packet (fuel + 1) conn try_ =
      some (conn.after rest [(tid, buf)], .err ⟨0, (GoError.other msg).Error⟩, some (.other msg)) := by
  rw [transmitLoop, Send_ok hw tid hb]
  simp [Recv, ReadFrom, Conn.after, hr]

/-- One turn of the loop of `Transmit` that receives, from the expected
address, a datagram that `MakePacket` rejects. -/
theorem transmitLoop_undecodable (hw : conn.noWriteFailure) (hb : packet.Bytes = .ok buf)
    {addr : Addr} {d : Bytes} {rest : List ReadResult}
    (hr : conn.reads = .datagram addr d :: rest) (ha : addr.String = tid.String)
    {err : GoError} (hd : MakePacket (d.take 1024) = .error err) (fuel : Nat) (try_ : Nat) :
    transmitLoop tid packet (fuel + 1) conn try_ =
      some (conn.after rest [(tid, buf)], .err ⟨0, err.Error⟩, some err) := by
  obtain ⟨msg, rfl⟩ := MakePacket_error_other hd
  rw [transmitLoop, Send_ok hw tid hb]
  simp [Recv, ReadFrom, Conn.after, hr, ha, hd]

/-- One turn of the loop of `Transmit` that receives a decodable datagram from
the expected address. -/
theorem transmitLoop_received (hw : conn.noWriteFailure) (hb : packet.Bytes = .ok buf)
    {addr : Addr} {d : Bytes} {rest : List ReadResult}
    (hr : conn.reads = .datagram addr d :: rest) (ha : addr.String = tid.String)
    {raw : Raw} (hd : MakePacket (d.take 1024) = .ok raw) (fuel : Nat) (try_ : Nat) :
    transmitLoop tid packet (fuel + 1) conn try_ = some (conn.after rest [(tid, buf)], raw, none) := by
  rw [transmitLoop, Send_ok hw tid hb]
  simp [Recv, ReadFrom, Conn.after, hr, ha, hd]

end TransmitSteps

/-- The loop of `Transmit` across retry outcomes `pre` that hold fewer timeouts
than the bound leaves: it writes `retrySent` and goes on with the timeouts
added to its counter. -/
theorem transmitLoop_retries {tid : Addr} {packet : Packet} {buf e5 : Bytes}
    (hb : packet.Bytes = .ok buf)
    (he5 : (Packet.err ⟨5, str "Unknown transfer ID"⟩).Bytes = .ok e5)
    (pre rest : List ReadResult) :
    ∀ (conn : Conn) (fuel try_ : Nat), conn.noWriteFailure → conn.reads = pre ++ rest →
      (∀ r ∈ pre, retryOutcome tid r = true) → try_ + countTimeouts pre < maxTimeout →
      transmitLoop tid packet (fuel + pre.length) conn try_ =
        transmitLoop tid packet fuel (conn.after rest (retrySent tid buf e5 pre))
          (try_ + countTimeouts pre) := by
  induction pre with
  | nil =>
    intro conn fuel try_ _ hr _ _
    have hr1 : conn.reads = rest := hr
    have : conn.after rest [] = conn := by rw [← hr1]; exact conn.after_self
    simp [retrySent, countTimeouts, this]
  | cons r pre ih =>
    intro conn fuel try_ hw hr0 hp ht
    have hr : conn.reads = r :: (pre ++ rest) := hr0
    have hp1 : ∀ x ∈ pre, retryOutcome tid x = true := fun x hx => hp x (List.mem_cons_of_mem _ hx)
    have hr0 := hp r (List.mem_cons_self _ _)
    have hlen : fuel + (r :: pre).length = (fuel + pre.length) + 1 := by simp [Nat.add_assoc]
    rw [hlen]
    cases r with
    | fail err =>
      cases err with
      | timeout m =>
        have ht1 : try_ + 1 + countTimeouts pre < maxTimeout := by
          simp only [countTimeouts] at ht; omega
        rw [transmitLoop_timeout_retry hw hb hr _ (by omega),
          ih _ _ _ (Conn.noWriteFailure_after hw _ _) rfl hp1 ht1, Conn.after_after]
        simp only [retrySent, countTimeouts, List.singleton_append]
        congr 1
        omega
      | tid t =>
        have ht1 : try_ + countTimeouts pre < maxTimeout := by
          simpa only [countTimeouts] using ht
        rw [transmitLoop_tidError hw hb he5 hr,
          ih _ _ _ (Conn.noWriteFailure_after hw _ _) rfl hp1 ht1, Conn.after_after]
        simp [retrySent, countTimeouts]
      | other msg => simp [retryOutcome] at hr0
    | datagram addr d =>
      have ha : addr.String ≠ tid.String := by simpa [retryOutcome] using hr0
      have ht1 : try_ + countTimeouts pre < maxTimeout := by
        simpa only [countTimeouts] using ht
      rw [transmitLoop_wrong_addr hw hb he5 hr ha,
        ih _ _ _ (Conn.noWriteFailure_after hw _ _) rfl hp1 ht1, Conn.after_after]
      simp [retrySent, countTimeouts]

theorem retryOutcome_wrong {tid : Addr} {wrong : List (Addr × Bytes)}
    (hwrong : ∀ x ∈ wrong, x.1.String ≠ tid.String) :
    ∀ r ∈ wrong.map (fun x => ReadResult.datagram x.1 x.2), retryOutcome tid r = true := by
  intro r hr
  obtain ⟨x, hx, rfl⟩ := List.mem_map.1 hr
  simpa [retryOutcome] using hwrong x hx

theorem countTimeouts_wrong (wrong : List (Addr × Bytes)) :
    countTimeouts (wrong.map (fun x => ReadResult.datagram x.1 x.2)) = 0 := by
  induction wrong with
  | nil => rfl
  | cons x xs ih => simpa [countTimeouts] using ih

theorem retrySent_wrong (tid : Addr) (buf e5 : Bytes) (wrong : List (Addr × Bytes)) :
    retrySent tid buf e5 (wrong.map (fun x => ReadResult.datagram x.1 x.2)) =
      wrong.flatMap (fun x => [(tid, buf), (x.1, e5)]) := by
  induction wrong with
  | nil => rfl
  | cons x xs ih => simp [retrySent, ih, List.flatMap]

theorem count_wrong_exchanges {tid : Addr} (buf e5 : Bytes) {wrong : List (Addr × Bytes)}
    (hwrong : ∀ x ∈ wrong, x.1.String ≠ tid.String) :
    (wrong.flatMap (fun x => [(tid, buf), (x.1, e5)])).count (tid, buf) = wrong.length := by
  induction wrong with
  | nil => rfl
  | cons x xs ih =>
    have hx : x.1 ≠ tid := fun e => hwrong x (List.mem_cons_self _ _) (by rw [e])
    have hne : ((x.1, e5) == (tid, buf)) = false := by
      simp [hx]
    have ih1 := ih (fun y hy => hwrong y (List.mem_cons_of_mem _ hy))
    simp only [List.flatMap, List.map_cons, List.flatten_cons] at ih1 ⊢
    simp [List.count_cons, ih1, hne]

/-! ## Transmit: claims -/

/-- C8: when the receive attempts time out, `Transmit` writes the packet to the
expected remote exactly 5 times, writes nothing else, makes no sixth
attempt, and returns the Error packet with code 0 together with the fifth
timeout as failure. -/
theorem retry_bound (conn : Conn) (tid : Addr) (packet : Packet) (buf : Bytes)
    (m1 m2 m3 m4 m5 : GoString) (rest : List ReadResult)
    (hw : conn.noWriteFailure) (hb : packet.Bytes = .ok buf)
    (hr : conn.reads =
      [.fail (.timeout m1), .fail (.timeout m2), .fail (.timeout m3), .fail (.timeout m4),
        .fail (.timeout m5)] ++ rest) :
    Transmit conn tid packet =
      some (conn.after rest (List.replicate 5 (tid, buf)),
        .err ⟨0, str "Connection timed out"⟩, some (.timeout m5)) := by
  obtain ⟨e5, he5⟩ := Packet.Bytes_ok (.err ⟨5, str "Unknown transfer ID"⟩)
  have hr1 : conn.reads =
      [.fail (.timeout m1), .fail (.timeout m2), .fail (.timeout m3), .fail (.timeout m4)] ++
        (.fail (.timeout m5) :: rest) := by simpa using hr
  have hfuel : conn.reads.length + 1 =
      (rest.length + 1 + 1) +
        ([.fail (.timeout m1), .fail (.timeout m2), .fail (.timeout m3),
          .fail (.timeout m4)] : List ReadResult).length := by
    simp [hr]
  rw [Transmit, hfuel,
    transmitLoop_retries hb he5 _ _ conn _ 0 hw hr1 (by simp [retryOutcome])
      (by simp [countTimeouts, maxTimeout]),
    transmitLoop_timeout_last (Conn.noWriteFailure_after hw _ _) hb rfl _
      (by simp [countTimeouts, maxTimeout]),
    Conn.after_after]
  rfl

theorem retry_bound_witness :
    Transmit (sampleConn (List.replicate 5 (.fail (.timeout (str "foo"))))) sampleTid (.ack ⟨1⟩) =
      some ((sampleConn (List.replicate 5 (.fail (.timeout (str "foo"))))).after []
          (List.replicate 5 (sampleTid, [0, 4, 0, 1])),
        .err ⟨0, str "Connection timed out"⟩, some (.timeout (str "foo"))) :=
  retry_bound _ sampleTid (.ack ⟨1⟩) [0, 4, 0, 1] (str "foo") (str "foo") (str "foo")
    (str "foo") (str "foo") [] (fun _ => rfl) rfl rfl

/-- C9: for every number k of datagrams from addresses whose string differs
from the expected remote's, followed by a decodable datagram from the
expected remote, `Transmit` returns the decoded packet with no failure; it
has written, in this order, the packet to the expected remote and an Error
packet with code 5 to the sender for each of the k datagrams, and then the
packet once more: the packet k+1 times in all. -/
theorem wrong_tid_not_counted (conn : Conn) (tid : Addr) (packet : Packet) (buf e5 : Bytes)
    (wrong : List (Addr × Bytes)) (src : Addr) (d : Bytes) (raw : Raw) (rest : List ReadResult)
    (hw : conn.noWriteFailure) (hb : packet.Bytes = .ok buf)
    (he5 : (Packet.err ⟨5, str "Unknown transfer ID"⟩).Bytes = .ok e5)
    (hwrong : ∀ x ∈ wrong, x.1.String ≠ tid.String) (hsrc : src.String = tid.String)
    (hd : MakePacket (d.take 1024) = .ok raw)
    (hr : conn.reads = wrong.map (fun x => .datagram x.1 x.2) ++ .datagram src d :: rest) :
    Transmit conn tid packet =
      some (conn.after rest (wrong.flatMap (fun x => [(tid, buf), (x.1, e5)]) ++ [(tid, buf)]),
        raw, none) ∧
    (wrong.flatMap (fun x => [(tid, buf), (x.1, e5)]) ++ [(tid, buf)]).count (tid, buf) =
      wrong.length + 1 := by
  constructor
  · have hfuel : conn.reads.length + 1 =
        (rest.length + 1 + 1) + (wrong.map (fun x => ReadResult.datagram x.1 x.2)).length := by
      simp [hr]; omega
    rw [Transmit, hfuel,
      transmitLoop_retries hb he5 _ _ conn _ 0 hw hr (retryOutcome_wrong hwrong)
        (by simp [countTimeouts_wrong, maxTimeout]),
      transmitLoop_received (Conn.noWriteFailure_after hw _ _) hb rfl hsrc hd,
      Conn.after_after, retrySent_wrong]
  · rw [List.count_append, count_wrong_exchanges buf e5 hwrong]
    simp

theorem wrong_tid_not_counted_witness :
    Transmit (sampleConn [.datagram sampleOther [], .datagram sampleTid [0, 4, 0, 2]]) sampleTid
        (.ack ⟨1⟩) =
      some ((sampleConn [.datagram sampleOther [], .datagram sampleTid [0, 4, 0, 2]]).after []
          ([(sampleOther, ([] : Bytes))].flatMap
              (fun x => [(sampleTid, [0, 4, 0, 1]), (x.1, sampleErr5)]) ++
            [(sampleTid, [0, 4, 0, 1])]),
        .ack ⟨2⟩, none) ∧
    ([(sampleOther, ([] : Bytes))].flatMap
          (fun x => [(sampleTid, ([0, 4, 0, 1] : Bytes)), (x.1, sampleErr5)]) ++
        [(sampleTid, [0, 4, 0, 1])]).count (sampleTid, [0, 4, 0, 1]) =
      [(sampleOther, ([] : Bytes))].length + 1 :=
  wrong_tid_not_counted _ sampleTid (.ack ⟨1⟩) [0, 4, 0, 1] sampleErr5 [(sampleOther, [])]
    sampleTid [0, 4, 0, 2] (.ack ⟨2⟩) [] (fun _ => rfl) rfl (by decide) (by decide)
    rfl (by decide) rfl

/-- C10: when a receive attempt of `Transmit` fails with an error that is
neither a timeout nor a wrong transfer ID (a plain read error, or a datagram
from the expected remote that `MakePacket` rejects), after any retry
outcomes with fewer than 5 timeouts, `Transmit` writes and reads nothing
more and returns the Error packet with code 0 and the failure's text,
together with that failure. -/
theorem read_failure_aborts (conn : Conn) (tid : Addr) (packet : Packet) (buf e5 : Bytes)
    (pre : List ReadResult) (r : ReadResult) (rest : List ReadResult) (err : GoError)
    (hw : conn.noWriteFailure) (hb : packet.Bytes = .ok buf)
    (he5 : (Packet.err ⟨5, str "Unknown transfer ID"⟩).Bytes = .ok e5)
    (hpre : ∀ x ∈ pre, retryOutcome tid x = true) (hto : countTimeouts pre < maxTimeout)
    (hr : conn.reads = pre ++ r :: rest)
    (hfail : (∃ msg, r = .fail (.other msg) ∧ err = .other msg) ∨
      (∃ addr d, r = .datagram addr d ∧ addr.String = tid.String ∧
        MakePacket (d.take 1024) = .error err)) :
    Transmit conn tid packet =
      some (conn.after rest (retrySent tid buf e5 pre ++ [(tid, buf)]),
        .err ⟨0, err.Error⟩, some err) := by
  have hfuel : conn.reads.length + 1 = (rest.length + 1 + 1) + pre.length := by
    simp [hr]; omega
  rw [Transmit, hfuel,
    transmitLoop_retries hb he5 _ _ conn _ 0 hw hr hpre (by simpa using hto)]
  rcases hfail with ⟨msg, rfl, rfl⟩ | ⟨addr, d, rfl, ha, hd⟩
  · rw [transmitLoop_read_error (Conn.noWriteFailure_after hw _ _) hb rfl, Conn.after_after]
  · rw [transmitLoop_undecodable (Conn.noWriteFailure_after hw _ _) hb rfl ha hd, Conn.after_after]

theorem read_failure_aborts_witness :
    Transmit (sampleConn [.fail (.timeout (str "foo")), .datagram sampleTid [0, 9, 65]]) sampleTid
        (.ack ⟨1⟩) =
      some ((sampleConn [.fail (.timeout (str "foo")), .datagram sampleTid [0, 9, 65]]).after []
          (retrySent sampleTid [0, 4, 0, 1] sampleErr5 [.fail (.timeout (str "foo"))] ++
            [(sampleTid, [0, 4, 0, 1])]),
        .err ⟨0, (GoError.other (str "Invalid op code")).Error⟩,
        some (.other (str "Invalid op code"))) :=
  read_failure_aborts _ sampleTid (.ack ⟨1⟩) [0, 4, 0, 1] sampleErr5
    [.fail (.timeout (str "foo"))] (.datagram sampleTid [0, 9, 65]) []
    (.other (str "Invalid op code")) (fun _ => rfl) rfl (by decide) (by decide) (by decide) rfl
    (Or.inr ⟨_, _, rfl, rfl, by decide⟩)

/-! ## HandleWrite: helper lemmas -/

theorem AckPacket_Bytes_of_lt {b : Nat} (h : b < 65536) :
    (Packet.ack ⟨b⟩).Bytes = .ok [0, 4, b / 256, b % 256] := by
  show Except.ok (writeUint16 OpAck ++ writeUint16 b) = _
  rw [writeUint16_of_lt h]
  rfl

theorem DataPacket_Bytes_of_lt {b : Nat} (h : b < 65536) (d : Bytes) :
    (Packet.data ⟨b, d⟩).Bytes = .ok ([0, 3, b / 256, b % 256] ++ d) := by
  show Except.ok (writeUint16 OpData ++ writeUint16 b ++ d) = _
  rw [writeUint16_of_lt h]
  rfl

theorem MakePacket_data_wire {b : Nat} (h : b < 65536) (d : Bytes) :
    MakePacket ([0, 3, b / 256, b % 256] ++ d) = .ok (.data ⟨b, d⟩) := by
  have := MakePacket_data h d
  rw [writeUint16_of_lt h] at this
  exact this

theorem MakePacket_ack_wire {b : Nat} (h : b < 65536) :
    MakePacket [0, 4, b / 256, b % 256] = .ok (.ack ⟨b⟩) := by
  have := MakePacket_ack h
  rw [writeUint16_of_lt h] at this
  exact this

/-- A call of `Transmit` whose first receive gives a decodable datagram from
the expected address. -/
theorem Transmit_received {conn : Conn} {tid : Addr} {packet : Packet} {buf : Bytes}
    (hw : conn.noWriteFailure) (hb : packet.Bytes = .ok buf)
    {addr : Addr} {d : Bytes} {rest : List ReadResult}
    (hr : conn.reads = .datagram addr d :: rest) (ha : addr.String = tid.String)
    {raw : Raw} (hd : MakePacket (d.take 1024) = .ok raw) :
    Transmit conn tid packet = some (conn.after rest [(tid, buf)], raw, none) := by
  rw [Transmit, transmitLoop_received hw hb hr ha hd]

/-- The receive loop of `HandleWrite` on an upload in order: full blocks, then
a short one. -/
theorem writeLoop_in_order {tid src : Addr} (hsrc : src.String = tid.String) (last : Bytes)
    (hlast : last.length < 512) (rest : List ReadResult) (blocks : List Bytes) :
    ∀ (conn : Conn) (fuel b0 : Nat) (acc : Bytes), conn.noWriteFailure →
      (∀ d ∈ blocks, d.length = 512) → b0 + blocks.length + 1 ≤ 65535 →
      blocks.length + 1 ≤ fuel →
      conn.reads = uploadDatagrams src b0 (blocks ++ [last]) ++ rest →
      writeLoop tid fuel conn b0 acc =
        some (conn.after rest (ackSends tid b0 (blocks.length + 1)),
          .done (b0 + blocks.length + 1) (acc ++ blocks.flatten ++ last)) := by
  induction blocks with
  | nil =>
    intro conn fuel b0 acc hw _ hb0 hfuel hr
    obtain ⟨fuel, rfl⟩ : ∃ f, fuel = f + 1 := ⟨fuel - 1, by simp at hfuel; omega⟩
    have hr1 : conn.reads =
        .datagram src ([0, 3, (b0 + 1) / 256, (b0 + 1) % 256] ++ last) :: rest := hr
    have hd : MakePacket (([0, 3, (b0 + 1) / 256, (b0 + 1) % 256] ++ last).take 1024) =
        .ok (.data ⟨b0 + 1, last⟩) := by
      rw [List.take_of_length_le (by simp; omega)]
      exact MakePacket_data_wire (by simp at hb0; omega) last
    have hT := Transmit_received hw (AckPacket_Bytes_of_lt (b := b0) (by omega)) hr1 hsrc hd
    have hmod : (b0 + 1) % 65536 = b0 + 1 := Nat.mod_eq_of_lt (by simp at hb0; omega)
    simp [writeLoop, hT, hmod, blockSize, hlast, ackSends, List.range']
  | cons d ds ih =>
    intro conn fuel b0 acc hw hfull hb0 hfuel hr
    obtain ⟨fuel, rfl⟩ : ∃ f, fuel = f + 1 := ⟨fuel - 1, by simp at hfuel; omega⟩
    have hlen : d.length = 512 := hfull d (List.mem_cons_self _ _)
    have hr1 : conn.reads =
        .datagram src ([0, 3, (b0 + 1) / 256, (b0 + 1) % 256] ++ d) ::
          (uploadDatagrams src (b0 + 1) (ds ++ [last]) ++ rest) := hr
    have hd : MakePacket (([0, 3, (b0 + 1) / 256, (b0 + 1) % 256] ++ d).take 1024) =
        .ok (.data ⟨b0 + 1, d⟩) := by
      rw [List.take_of_length_le (by simp; omega)]
      exact MakePacket_data_wire (by simp at hb0; omega) d
    have hT := Transmit_received hw (AckPacket_Bytes_of_lt (b := b0) (by omega)) hr1 hsrc hd
    have hmod : (b0 + 1) % 65536 = b0 + 1 := Nat.mod_eq_of_lt (by simp at hb0; omega)
    have hnot : ¬ d.length < blockSize := by simp [hlen, blockSize]
    have hstep : writeLoop tid (fuel + 1) conn b0 acc =
        writeLoop tid fuel
          (conn.after (uploadDatagrams src (b0 + 1) (ds ++ [last]) ++ rest)
            [(tid, [0, 4, b0 / 256, b0 % 256])]) (b0 + 1) (acc ++ d) := by
      simp [writeLoop, hT, hmod, hnot]
    rw [hstep, ih _ fuel (b0 + 1) (acc ++ d) (Conn.noWriteFailure_after hw _ _)
      (fun x hx => hfull x (List.mem_cons_of_mem _ hx)) (by simp at hb0 ⊢; omega)
      (by simp at hfuel ⊢; omega) rfl, Conn.after_after]
    simp only [ackSends, List.length_cons, List.range'_succ, List.map_cons, List.singleton_append,
      List.flatten_cons, List.append_assoc]
    have e : b0 + 1 + ds.length + 1 = b0 + (ds.length + 1) + 1 := by omega
    rw [e]

/-! ## HandleWrite: claims -/

/-- C6: for an upload of N blocks, 1 ≤ N ≤ 65535, the first N-1 of exactly 512
bytes and the last shorter, where the client answers each Ack(k-1) with
Data(k, dk) from the expected address and no write fails, `HandleWrite`
returns after writing exactly Ack(0), ..., Ack(N) in this order to the
client, and the store then holds `d1 ++ ... ++ dN` under the requested file
name. -/
theorem write_in_order (conn : Conn) (tid src : Addr) (wp : WritePacket) (store : MemStore)
    (blocks : List Bytes) (last : Bytes) (rest : List ReadResult)
    (hw : conn.noWriteFailure) (hsrc : src.String = tid.String)
    (hfull : ∀ d ∈ blocks, d.length = 512) (hlast : last.length < 512)
    (hN : blocks.length + 1 ≤ 65535)
    (hr : conn.reads = uploadDatagrams src 0 (blocks ++ [last]) ++ rest) :
    HandleWrite conn tid wp memStorage store =
      some (conn.after rest (ackSends tid 0 (blocks.length + 2)),
        (store.Put wp.File (blocks.flatten ++ last)).1, .returned) ∧
    ((store.Put wp.File (blocks.flatten ++ last)).1).Get wp.File = .ok (blocks.flatten ++ last) := by
  constructor
  · have hfuel : blocks.length + 1 ≤ conn.reads.length + 1 := by
      simp [hr, uploadDatagrams]; omega
    have hloop := writeLoop_in_order hsrc last hlast rest blocks conn _ 0 [] hw hfull
      (by omega) hfuel hr
    have hw1 : (conn.after rest (ackSends tid 0 (blocks.length + 1))).noWriteFailure := hw
    have hsend := Send_ok hw1 tid
      (AckPacket_Bytes_of_lt (b := 0 + blocks.length + 1) (by omega))
    simp only [HandleWrite, hloop, memStorage, MemStore.Put, hsend, List.nil_append]
    simp only [Conn.after, List.append_assoc, Nat.add_assoc]
    simp [ackSends, List.range'_concat, Nat.add_assoc]
  · simp [MemStore.Put, MemStore.Get]

theorem write_in_order_witness :
    HandleWrite (sampleConn (uploadDatagrams sampleTid 0 ([List.replicate 512 7] ++ [[65, 66]]) ++ []))
        sampleTid ⟨[65], str "octet"⟩ memStorage NewMemStore =
      some ((sampleConn (uploadDatagrams sampleTid 0 ([List.replicate 512 7] ++ [[65, 66]]) ++ [])).after
          [] (ackSends sampleTid 0 ([List.replicate 512 7].length + 2)),
        (NewMemStore.Put [65] ([List.replicate 512 7].flatten ++ [65, 66])).1, .returned) ∧
    ((NewMemStore.Put [65] ([List.replicate 512 7].flatten ++ [65, 66])).1).Get [65] =
      .ok ([List.replicate 512 7].flatten ++ [65, 66]) :=
  write_in_order _ sampleTid sampleTid ⟨[65], str "octet"⟩ NewMemStore [List.replicate 512 7]
    [65, 66] [] (fun _ => rfl) rfl
    (fun d hd => by rw [List.mem_singleton.1 hd]; exact List.length_replicate _ _)
    (by decide) (by decide) rfl

/-! ## HandleRead: helper lemmas -/

theorem min_def (a b : Nat) : min a b = if a < b then a else b := rfl

/-- The loop of `HandleRead` when each block is acknowledged with its number. -/
theorem readLoop_in_order {tid src : Addr} (hsrc : src.String = tid.String) (dat : Bytes)
    (rest : List ReadResult) (m : Nat) :
    ∀ (conn : Conn) (fuel j : Nat), conn.noWriteFailure →
      j + m = (dat.length + 511) / 512 → m + 1 ≤ fuel →
      conn.reads = ackDatagrams src j m ++ rest →
      readLoop tid dat fuel conn (min (512 * j) dat.length) ((j + 1) % 65536) =
        some (conn.after rest (dataSends tid dat j m), .returned) := by
  induction m with
  | zero =>
    intro conn fuel j _ hj hfuel hr
    obtain ⟨fuel, rfl⟩ : ∃ f, fuel = f + 1 := ⟨fuel - 1, by omega⟩
    have hr1 : conn.reads = rest := hr
    have hpos : ¬ min (512 * j) dat.length < dat.length := by
      rw [min_def]; split <;> omega
    have hc : conn.after rest [] = conn := by rw [← hr1]; exact conn.after_self
    simp [readLoop, hpos, dataSends, hc]
  | succ m ih =>
    intro conn fuel j hw hj hfuel hr
    obtain ⟨fuel, rfl⟩ : ∃ f, fuel = f + 1 := ⟨fuel - 1, by omega⟩
    have hlt : 512 * j < dat.length := by omega
    have hpos : min (512 * j) dat.length = 512 * j := by rw [min_def, if_pos hlt]
    have hr1 : conn.reads =
        .datagram src [0, 4, (j + 1) % 65536 / 256, (j + 1) % 65536 % 256] ::
          (ackDatagrams src (j + 1) m ++ rest) := by
      rw [hr, ackDatagrams, List.range'_succ]; rfl
    have hblk : (j + 1) % 65536 < 65536 := Nat.mod_lt _ (by decide)
    have hd : MakePacket
        (List.take 1024 [0, 4, (j + 1) % 65536 / 256, (j + 1) % 65536 % 256]) =
        .ok (.ack ⟨(j + 1) % 65536⟩) := by
      rw [List.take_of_length_le (by simp)]
      exact MakePacket_ack_wire hblk
    have hT := Transmit_received hw
      (DataPacket_Bytes_of_lt hblk (chunkOf dat j)) hr1 hsrc hd
    have hnext : ((j + 1) % 65536 + 1) % 65536 = (j + 1 + 1) % 65536 := by omega
    have hchunk : min (512 * j + blockSize) dat.length = min (512 * (j + 1)) dat.length := by
      simp [blockSize, Nat.mul_add]
    have hstep : readLoop tid dat (fuel + 1) conn (min (512 * j) dat.length) ((j + 1) % 65536) =
        readLoop tid dat fuel
          (conn.after (ackDatagrams src (j + 1) m ++ rest)
            [(tid, [0, 3, (j + 1) % 65536 / 256, (j + 1) % 65536 % 256] ++ chunkOf dat j)])
          (min (512 * (j + 1)) dat.length) ((j + 1 + 1) % 65536) := by
      rw [readLoop, hpos, if_pos hlt]
      simp only [hchunk]
      rw [show (List.take (min (512 * (j + 1)) dat.length) dat).drop (512 * j) = chunkOf dat j
        from rfl, hT]
      simp [hnext]
    rw [hstep, ih _ fuel (j + 1) (Conn.noWriteFailure_after hw _ _) (by omega) (by omega) rfl,
      Conn.after_after]
    simp [dataSends, List.range'_succ]

/-- The chunks of a file from index `j` on concatenate to the file from
`512 * j` on. -/
theorem chunks_flatten (dat : Bytes) (m : Nat) :
    ∀ j, j + m = (dat.length + 511) / 512 →
      ((List.range' j m).map (chunkOf dat)).flatten = dat.drop (512 * j) := by
  induction m with
  | zero =>
    intro j hj
    have : dat.length ≤ 512 * j := by omega
    simp [List.drop_eq_nil_of_le this]
  | succ m ih =>
    intro j hj
    rw [List.range'_succ, List.map_cons, List.flatten_cons, ih (j + 1) (by omega)]
    have hlt : 512 * j < dat.length := by omega
    by_cases h : 512 * (j + 1) < dat.length
    · have hmin : min (512 * (j + 1)) dat.length = 512 * (j + 1) := by rw [min_def, if_pos h]
      rw [chunkOf, hmin]
      have e : 512 * (j + 1) = 512 * j + 512 := by omega
      rw [e]
      conv_rhs => rw [← List.take_append_drop (512 * j + 512) dat]
      rw [List.drop_append_of_le_length (by rw [List.length_take]; omega)]
    · have hmin : min (512 * (j + 1)) dat.length = dat.length := by rw [min_def, if_neg h]
      rw [chunkOf, hmin, List.take_of_length_le (Nat.le_refl _),
        List.drop_eq_nil_of_le (by omega : dat.length ≤ 512 * (j + 1))]
      simp

theorem dataSends_empty_file (tid : Addr) (dat : Bytes) (h : dat.length = 0) :
    dataSends tid dat 0 ((dat.length + 511) / 512) = [] := by
  rw [h]; rfl

theorem dataSends_one_block (tid : Addr) (dat : Bytes) (h : dat.length = 512) :
    dataSends tid dat 0 ((dat.length + 511) / 512) = [(tid, [0, 3, 0, 1] ++ dat)] := by
  have e : (dat.length + 511) / 512 = 1 := by omega
  rw [e]
  simp [dataSends, chunkOf, min_def, h, List.take_of_length_le (Nat.le_of_eq h)]

theorem dataSends_two_blocks (tid : Addr) (dat : Bytes) (h : dat.length = 1024) :
    dataSends tid dat 0 ((dat.length + 511) / 512) =
      [(tid, [0, 3, 0, 1] ++ dat.take 512), (tid, [0, 3, 0, 2] ++ dat.drop 512)] := by
  have e : (dat.length + 511) / 512 = 2 := by omega
  rw [e]
  simp [dataSends, chunkOf, min_def, h, List.take_of_length_le (Nat.le_of_eq h), List.range']

/-! ## HandleRead: claims -/

/-- C7: for a stored file of length L, when each Data block is answered from
the expected address by an Ack with the same block number and no write
fails, `HandleRead` returns after writing exactly ceil(L/512) packets, the
one of index j (from 0) being Data((j+1) mod 65536, file[512*j :
min(512*(j+1), L)]), and writes and reads nothing after the last Ack; the
payloads concatenate to the file and every block but the last carries
exactly 512 bytes; a file of 0 bytes gives no packet, a file of 512 bytes
the single block 1 with the whole file, a file of 1024 bytes the two full
blocks 1 and 2. -/
theorem read_in_order {σ : Type} (conn : Conn) (tid src : Addr) (rp : ReadPacket) (S : Storage σ)
    (store : σ) (dat : Bytes) (rest : List ReadResult)
    (hw : conn.noWriteFailure) (hsrc : src.String = tid.String)
    (hget : S.Get store rp.File = .ok dat)
    (hr : conn.reads = ackDatagrams src 0 ((dat.length + 511) / 512) ++ rest) :
    HandleRead conn tid rp S store =
      some (conn.after rest (dataSends tid dat 0 ((dat.length + 511) / 512)), .returned) ∧
    (dataSends tid dat 0 ((dat.length + 511) / 512)).length = (dat.length + 511) / 512 ∧
    ((List.range' 0 ((dat.length + 511) / 512)).map (chunkOf dat)).flatten = dat ∧
    (∀ j, j + 1 < (dat.length + 511) / 512 → (chunkOf dat j).length = 512) ∧
    (dat.length = 0 → dataSends tid dat 0 ((dat.length + 511) / 512) = []) ∧
    (dat.length = 512 →
      dataSends tid dat 0 ((dat.length + 511) / 512) = [(tid, [0, 3, 0, 1] ++ dat)]) ∧
    (dat.length = 1024 →
      dataSends tid dat 0 ((dat.length + 511) / 512) =
        [(tid, [0, 3, 0, 1] ++ dat.take 512), (tid, [0, 3, 0, 2] ++ dat.drop 512)]) := by
  refine ⟨?_, ?_, ?_, ?_, dataSends_empty_file tid dat, dataSends_one_block tid dat,
    dataSends_two_blocks tid dat⟩
  · have hfuel : (dat.length + 511) / 512 + 1 ≤ conn.reads.length + 1 := by
      simp [hr, ackDatagrams]
    have h0 : min (512 * 0) dat.length = 0 := by
      rw [min_def]; split <;> omega
    have hloop := readLoop_in_order hsrc dat rest ((dat.length + 511) / 512) conn _ 0 hw
      (by omega) hfuel hr
    rw [h0] at hloop
    simp only [HandleRead, hget]
    exact hloop
  · simp [dataSends]
  · simpa using chunks_flatten dat ((dat.length + 511) / 512) 0 (by omega)
  · intro j hj
    have h : 512 * (j + 1) < dat.length := by omega
    rw [chunkOf, min_def, if_pos h, List.length_drop, List.length_take]
    omega

theorem read_in_order_witness :
    HandleRead
        (sampleConn (ackDatagrams sampleTid 0 (((List.replicate 512 7).length + 511) / 512) ++ []))
        sampleTid ⟨[65], str "octet"⟩ memStorage (NewMemStore.Put [65] (List.replicate 512 7)).1 =
      some ((sampleConn
            (ackDatagrams sampleTid 0 (((List.replicate 512 7).length + 511) / 512) ++ [])).after []
          (dataSends sampleTid (List.replicate 512 7) 0 (((List.replicate 512 7).length + 511) / 512)),
        .returned) :=
  (read_in_order
    (sampleConn (ackDatagrams sampleTid 0 (((List.replicate 512 7).length + 511) / 512) ++ []))
    sampleTid sampleTid ⟨[65], str "octet"⟩ memStorage
    (NewMemStore.Put [65] (List.replicate 512 7)).1 (List.replicate 512 7) []
    (fun _ => rfl) rfl rfl rfl).1

/-! ## Error messages, storage, missing files -/

theorem TrimSuffix_null (s : Bytes) :
    TrimSuffix s [0] = if s.getLast? = some 0 then s.dropLast else s := by
  rcases List.eq_nil_or_concat s with rfl | ⟨t, x, rfl⟩
  · rfl
  · by_cases hx : x = 0
    · subst hx
      simp [TrimSuffix]
    · have h1 : ([0] : Bytes).isSuffixOf (t ++ [x]) = false := by
        rw [Bool.eq_false_iff]
        intro h
        rw [List.isSuffixOf_iff_suffix] at h
        obtain ⟨u, hu⟩ := h
        have := congrArg List.getLast? hu
        simp at this
        exact hx this.symm
      simp [TrimSuffix, h1, hx]

theorem MakePacket_err_wire (c : Nat) (s : Bytes) :
    MakePacket ([0, 5, c / 256, c % 256] ++ s) = .ok (.err ⟨c, TrimSuffix s [0]⟩) := by
  have : c / 256 * 256 + c % 256 = c := by omega
  simp [MakePacket, readUint16, OpData, OpAck, OpErr, OpRead, OpWrite, this]
  rw [if_neg (by omega), if_neg (by omega)]

/-- C16: for every 16-bit code `c` and byte string `s`, `MakePacket` of
`[0,5,c/256,c%256] ++ s` is the Error packet with code `c` and the message
`s` without its last byte when `s` ends in a null byte, `s` itself
otherwise: exactly one trailing null is removed, so a second trailing null
and interior nulls stay in the message. -/
theorem err_message_trim (c : Nat) (s : Bytes) (hc : c < 65536) :
    MakePacket ([0, 5, c / 256, c % 256] ++ s) =
      .ok (.err ⟨c, if s.getLast? = some 0 then s.dropLast else s⟩) ∧
    (∀ t : Bytes, s = t ++ [0] →
      MakePacket ([0, 5, c / 256, c % 256] ++ s) = .ok (.err ⟨c, t⟩)) ∧
    (s.getLast? ≠ some 0 → MakePacket ([0, 5, c / 256, c % 256] ++ s) = .ok (.err ⟨c, s⟩)) := by
  have _ := hc
  have h := MakePacket_err_wire c s
  rw [TrimSuffix_null] at h
  refine ⟨h, ?_, ?_⟩
  · rintro t rfl
    simpa using h
  · intro hs
    simpa [hs] using h

theorem err_message_trim_witness :
    MakePacket ([0, 5, 6 / 256, 6 % 256] ++ [65, 0, 66, 0, 0]) =
      .ok (.err ⟨6, if ([65, 0, 66, 0, 0] : Bytes).getLast? = some 0 then
        ([65, 0, 66, 0, 0] : Bytes).dropLast else [65, 0, 66, 0, 0]⟩) :=
  (err_message_trim 6 [65, 0, 66, 0, 0] (by decide)).1

theorem MemStore.Get_puts (puts : List (GoString × Bytes)) (n : GoString) :
    ∀ m : MemStore, (∀ p ∈ puts, p.1 ≠ n) →
      (puts.foldl (fun m p => (m.Put p.1 p.2).1) m).Get n = m.Get n := by
  induction puts with
  | nil => intro m _; rfl
  | cons p ps ih =>
    intro m h
    have hp : n ≠ p.1 := fun e => h p (List.mem_cons_self _ _) e.symm
    rw [List.foldl_cons, ih _ (fun q hq => h q (List.mem_cons_of_mem _ hq))]
    simp [MemStore.Put, MemStore.Get, hp]

/-- C17: the store is a last-write-wins map: for every store state, names `a`
and `b` and content `v`, `Put(a, v)` succeeds, after it `Get(a)` returns
exactly `v` and `Get(b)` for `b ≠ a` returns what it returned before; `Get`
of a name that was never `Put` since `NewMemStore` fails with the not-found
error. -/
theorem store_last_write_wins (m : MemStore) (a b : GoString) (v : Bytes)
    (puts : List (GoString × Bytes)) (n : GoString) :
    (m.Put a v).2 = none ∧
    (m.Put a v).1.Get a = .ok v ∧
    (b ≠ a → (m.Put a v).1.Get b = m.Get b) ∧
    ((∀ p ∈ puts, p.1 ≠ n) →
      (puts.foldl (fun m p => (m.Put p.1 p.2).1) NewMemStore).Get n =
        .error (.other (str "File not found."))) := by
  refine ⟨rfl, ?_, ?_, ?_⟩
  · simp [MemStore.Put, MemStore.Get]
  · intro h
    simp [MemStore.Put, MemStore.Get, h]
  · intro h
    rw [MemStore.Get_puts puts n NewMemStore h]
    rfl

/-- C11: for every file name for which the storage `Get` fails, `HandleRead`
returns after exactly one call of `WriteTo`, which carries the Error packet
with code 1 to the requester, and without any receive: nothing else is
written, no Data packet in particular. -/
theorem read_missing_file {σ : Type} (conn : Conn) (tid : Addr) (rp : ReadPacket) (S : Storage σ)
    (store : σ) (err : GoError) (hget : S.Get store rp.File = .error err) :
    ∃ conn1, HandleRead conn tid rp S store = some (conn1, .returned) ∧
      conn1.reads = conn.reads ∧ conn1.writes = conn.writes + 1 ∧
      (conn.wfail conn.writes = none →
        conn1.sent = conn.sent ++ [(tid, [0, 5, 0, 1] ++ str "File does not exist" ++ [0])]) ∧
      (conn.wfail conn.writes ≠ none → conn1.sent = conn.sent) := by
  refine ⟨(Send conn tid (.err ⟨1, str "File does not exist"⟩)).1, ?_, ?_, ?_, ?_, ?_⟩
  · simp [HandleRead, hget]
  · exact Send_reads _ _ _
  · rw [Send_eq]
    show (WriteTo conn _ tid).1.writes = _
    unfold WriteTo
    cases conn.wfail conn.writes <;> rfl
  · intro h
    rw [Send_eq]
    show (WriteTo conn _ tid).1.sent = _
    unfold WriteTo
    rw [h]
    rfl
  · intro h
    rw [Send_eq]
    show (WriteTo conn _ tid).1.sent = _
    unfold WriteTo
    cases hw : conn.wfail conn.writes with
    | none => exact absurd hw h
    | some e => rfl

theorem read_missing_file_witness :
    ∃ conn1, HandleRead (sampleConn []) sampleTid ⟨[65], str "octet"⟩ memStorage NewMemStore =
        some (conn1, .returned) ∧
      conn1.reads = (sampleConn []).reads ∧ conn1.writes = (sampleConn []).writes + 1 ∧
      ((sampleConn []).wfail (sampleConn []).writes = none →
        conn1.sent = (sampleConn []).sent ++
          [(sampleTid, [0, 5, 0, 1] ++ str "File does not exist" ++ [0])]) ∧
      ((sampleConn []).wfail (sampleConn []).writes ≠ none → conn1.sent = (sampleConn []).sent) :=
  read_missing_file (sampleConn []) sampleTid ⟨[65], str "octet"⟩ memStorage NewMemStore
    (.other (str "File not found.")) rfl

theorem store_last_write_wins_witness :
    ((NewMemStore.Put [65] [1, 2]).1.Put [66] [3]).1.Get [65] =
      (NewMemStore.Put [65] [1, 2]).1.Get [65] :=
  (store_last_write_wins (NewMemStore.Put [65] [1, 2]).1 [66] [65] [3] [] [67]).2.2.1 (by decide)

/-! ## What Transmit returns -/

theorem Recv_cons {conn conn1 : Conn} {tid : Addr} {r : Except GoError Raw}
    (h : Recv conn tid = some (conn1, r)) : ∃ x, conn.reads = x :: conn1.reads := by
  unfold Recv ReadFrom at h
  cases hr : conn.reads with
  | nil => simp [hr] at h
  | cons x rest =>
    rw [hr] at h
    refine ⟨x, ?_⟩
    cases x with
    | fail err =>
      simp only [Option.some.injEq, Prod.mk.injEq] at h
      rw [← h.1]
    | datagram addr d =>
      simp only at h
      split at h
      · simp only [Option.some.injEq, Prod.mk.injEq] at h
        rw [← h.1]
      · split at h <;>
        · simp only [Option.some.injEq, Prod.mk.injEq] at h
          rw [← h.1]

theorem Recv_decoded {conn conn1 : Conn} {tid : Addr} {raw : Raw}
    (h : Recv conn tid = some (conn1, .ok raw)) :
    ∃ addr d, conn.reads = .datagram addr d :: conn1.reads ∧ addr.String = tid.String ∧
      MakePacket (d.take 1024) = .ok raw := by
  obtain ⟨x, hx⟩ := Recv_cons h
  unfold Recv ReadFrom at h
  rw [hx] at h
  cases x with
  | fail err => simp at h
  | datagram addr d =>
    simp only at h
    split at h
    · simp at h
    · rename_i ha
      split at h
      · simp at h
      · rename_i raw1 hd
        simp only [Option.some.injEq, Prod.mk.injEq, Except.ok.injEq] at h
        exact ⟨addr, d, hx, by simpa using ha, by rw [hd, h.2]⟩

/-- Whatever the connection does, a result of the loop of `Transmit` with a
failure carries an Error packet with code 0, and a result without failure
carries the decoding of a datagram received from the expected address. -/
theorem transmitLoop_result (tid : Addr) (packet : Packet) :
    ∀ (fuel : Nat) (conn : Conn) (try_ : Nat) (conn1 : Conn) (raw : Raw) (err : Option GoError),
      transmitLoop tid packet fuel conn try_ = some (conn1, raw, err) →
      (err ≠ none → ∃ ep, raw = .err ep ∧ ep.ErrCode = 0) ∧
      (err = none → ∃ addr d, ReadResult.datagram addr d ∈ conn.reads ∧
        addr.String = tid.String ∧ MakePacket (d.take 1024) = .ok raw) := by
  intro fuel
  induction fuel with
  | zero => intro conn try_ conn1 raw err h; simp [transmitLoop] at h
  | succ fuel ih =>
    intro conn try_ conn1 raw err h
    rw [transmitLoop] at h
    rcases hs : Send conn tid packet with ⟨c1, r1⟩
    have hc1 : c1.reads = conn.reads := by
      have := Send_reads conn tid packet
      rw [hs] at this
      exact this
    rw [hs] at h
    cases r1 with
    | error e =>
      simp only [Option.some.injEq, Prod.mk.injEq] at h
      obtain ⟨-, rfl, rfl⟩ := h
      exact ⟨fun _ => ⟨_, rfl, rfl⟩, fun h => by cases h⟩
    | ok n =>
      simp only at h
      cases hrecv : Recv c1 tid with
      | none => simp [hrecv] at h
      | some p =>
        rcases p with ⟨c2, r2⟩
        obtain ⟨x, hx⟩ := Recv_cons hrecv
        rw [hc1] at hx
        rw [hrecv] at h
        cases r2 with
        | ok raw2 =>
          simp only [Option.some.injEq, Prod.mk.injEq] at h
          obtain ⟨-, rfl, rfl⟩ := h
          obtain ⟨addr, d, hd, ha, hm⟩ := Recv_decoded hrecv
          rw [hc1] at hd
          exact ⟨fun h => absurd rfl h, fun _ => ⟨addr, d, by rw [hd]; simp, ha, hm⟩⟩
        | error e =>
          cases e with
          | timeout msg =>
            simp only at h
            split at h
            · simp only [Option.some.injEq, Prod.mk.injEq] at h
              obtain ⟨-, rfl, rfl⟩ := h
              exact ⟨fun _ => ⟨_, rfl, rfl⟩, fun h => by cases h⟩
            · have := ih _ _ _ _ _ h
              refine ⟨this.1, fun he => ?_⟩
              obtain ⟨addr, d, hd, ha, hm⟩ := this.2 he
              exact ⟨addr, d, by rw [hx]; exact List.mem_cons_of_mem _ hd, ha, hm⟩
          | tid t =>
            simp only at h
            have hc3 := Send_reads c2 t.Tid (.err ⟨5, str "Unknown transfer ID"⟩)
            have := ih _ _ _ _ _ h
            rw [hc3] at this
            refine ⟨this.1, fun he => ?_⟩
            obtain ⟨addr, d, hd, ha, hm⟩ := this.2 he
            exact ⟨addr, d, by rw [hx]; exact List.mem_cons_of_mem _ hd, ha, hm⟩
          | other msg =>
            simp only [Option.some.injEq, Prod.mk.injEq] at h
            obtain ⟨-, rfl, rfl⟩ := h
            exact ⟨fun _ => ⟨_, rfl, rfl⟩, fun h => by cases h⟩

theorem Transmit_failure {conn conn1 : Conn} {tid : Addr} {packet : Packet} {raw : Raw}
    {e : GoError} (h : Transmit conn tid packet = some (conn1, raw, some e)) :
    ∃ ep, raw = .err ep ∧ ep.ErrCode = 0 :=
  (transmitLoop_result tid packet _ conn 0 conn1 raw (some e) h).1 (by simp)

/-- The receive loop of `HandleWrite` never ends in a panic. -/
theorem writeLoop_no_panic (tid : Addr) :
    ∀ (fuel : Nat) (conn : Conn) (blk : Nat) (dat : Bytes) (conn1 : Conn),
      writeLoop tid fuel conn blk dat ≠ some (conn1, .stop .panicked) := by
  intro fuel
  induction fuel with
  | zero => intro conn blk dat conn1; simp [writeLoop]
  | succ fuel ih =>
    intro conn blk dat conn1
    rw [writeLoop]
    cases hT : Transmit conn tid (.ack ⟨blk⟩) with
    | none => simp
    | some p =>
      rcases p with ⟨c1, raw, err⟩
      cases err with
      | some e =>
        obtain ⟨ep, rfl, -⟩ := Transmit_failure hT
        simp
      | none =>
        cases raw with
        | data packet =>
          simp only
          split
          · simp
          · exact ih _ _ _ _
        | _ => simp

/-- The loop of `HandleRead` never ends in a panic. -/
theorem readLoop_no_panic (tid : Addr) (dat : Bytes) :
    ∀ (fuel : Nat) (conn : Conn) (pos blk : Nat) (conn1 : Conn),
      readLoop tid dat fuel conn pos blk ≠ some (conn1, .panicked) := by
  intro fuel
  induction fuel with
  | zero => intro conn pos blk conn1; simp [readLoop]
  | succ fuel ih =>
    intro conn pos blk conn1
    rw [readLoop]
    split
    · simp only
      cases hT : Transmit conn tid
          (.data ⟨blk, (dat.take (min (pos + blockSize) dat.length)).drop pos⟩) with
      | none => simp
      | some p =>
        rcases p with ⟨c1, raw, err⟩
        cases err with
        | some e =>
          obtain ⟨ep, rfl, -⟩ := Transmit_failure hT
          simp
        | none =>
          cases raw with
          | ack packet =>
            simp only
            split
            · exact ih _ _ _ _
            · exact ih _ _ _ _
          | _ => simp
    · simp

theorem HandleWrite_no_panic {σ : Type} (conn : Conn) (tid : Addr) (wp : WritePacket)
    (S : Storage σ) (store : σ) (conn1 : Conn) (store1 : σ) :
    HandleWrite conn tid wp S store ≠ some (conn1, store1, .panicked) := by
  unfold HandleWrite
  cases hl : writeLoop tid (conn.reads.length + 1) conn 0 [] with
  | none => simp
  | some p =>
    rcases p with ⟨c1, ex⟩
    cases ex with
    | stop e =>
      cases e with
      | returned => simp
      | panicked => exact absurd hl (writeLoop_no_panic tid _ _ _ _ _)
    | done blk dat =>
      simp only
      rcases S.Put store wp.File dat with ⟨s1, r⟩
      cases r with
      | some e => simp
      | none =>
        simp only
        rcases Send c1 tid (.ack ⟨blk⟩) with ⟨c2, r2⟩
        cases r2 <;> simp

theorem HandleRead_no_panic {σ : Type} (conn : Conn) (tid : Addr) (rp : ReadPacket)
    (S : Storage σ) (store : σ) (conn1 : Conn) :
    HandleRead conn tid rp S store ≠ some (conn1, .panicked) := by
  unfold HandleRead
  cases S.Get store rp.File with
  | error e => simp
  | ok dat => exact readLoop_no_panic tid dat _ _ _ _ _

/-- C20: for every behaviour of the connection and every packet to send,
whenever `Transmit` returns a failure its first result is an Error packet
with code 0, and whenever it returns without failure its first result is
the decoding of a datagram received from the expected address; so the
assertions `raw.(ErrPacket)` of `HandleWrite` and `HandleRead` never panic. -/
theorem transmit_failure_is_error_packet (σ : Type) (conn : Conn) (tid : Addr) (packet : Packet)
    (conn1 : Conn) (raw : Raw) (err : Option GoError)
    (h : Transmit conn tid packet = some (conn1, raw, err)) :
    (err ≠ none → ∃ ep, raw = .err ep ∧ ep.ErrCode = 0) ∧
    (err = none → ∃ addr d, ReadResult.datagram addr d ∈ conn.reads ∧
      addr.String = tid.String ∧ MakePacket (d.take 1024) = .ok raw) ∧
    (∀ (c : Conn) (a : Addr) (wp : WritePacket) (S : Storage σ) (store : σ) (c1 : Conn) (s1 : σ),
      HandleWrite c a wp S store ≠ some (c1, s1, .panicked)) ∧
    (∀ (c : Conn) (a : Addr) (rp : ReadPacket) (S : Storage σ) (store : σ) (c1 : Conn),
      HandleRead c a rp S store ≠ some (c1, .panicked)) :=
  ⟨(transmitLoop_result tid packet _ conn 0 conn1 raw err h).1,
    (transmitLoop_result tid packet _ conn 0 conn1 raw err h).2,
    fun c a wp S store c1 s1 => HandleWrite_no_panic c a wp S store c1 s1,
    fun c a rp S store c1 => HandleRead_no_panic c a rp S store c1⟩

theorem transmit_failure_is_error_packet_witness :
    ∃ ep, Raw.err ⟨0, [82, 101, 97, 100]⟩ = .err ep ∧ ep.ErrCode = 0 :=
  (transmit_failure_is_error_packet MemStore (sampleConn [.fail (.other [82, 101, 97, 100])])
    sampleTid (.ack ⟨1⟩)
    ((sampleConn [.fail (.other [82, 101, 97, 100])]).after [] [(sampleTid, [0, 4, 0, 1])])
    (.err ⟨0, [82, 101, 97, 100]⟩) (some (.other [82, 101, 97, 100])) rfl).1 (by simp)

/-! ## What has been written only grows -/

theorem WriteTo_sent (conn : Conn) (buf : Bytes) (addr : Addr) :
    (WriteTo conn buf addr).1.sent =
      if conn.wfail conn.writes = none then conn.sent ++ [(addr, buf)] else conn.sent := by
  unfold WriteTo
  cases conn.wfail conn.writes <;> simp

theorem Send_sent_grows (conn : Conn) (tid : Addr) (packet : Packet) :
    conn.sent <+: (Send conn tid packet).1.sent := by
  rw [Send_eq]
  cases packet.Bytes with
  | error err => exact List.prefix_refl _
  | ok buf =>
    show conn.sent <+: (WriteTo conn buf tid).1.sent
    rw [WriteTo_sent]
    split
    · exact List.prefix_append _ _
    · exact List.prefix_refl _

theorem Send_sent_ok {conn : Conn} (hw : conn.wfail conn.writes = none) (tid : Addr)
    {packet : Packet} {buf : Bytes} (hb : packet.Bytes = .ok buf) :
    (Send conn tid packet).1.sent = conn.sent ++ [(tid, buf)] ∧
      ∃ n, (Send conn tid packet).2 = .ok n := by
  rw [Send_eq, hb]
  simp [WriteTo, hw]

theorem Send_error_of_ok {conn : Conn} (hw : conn.wfail conn.writes = none) (tid : Addr)
    {packet : Packet} {buf : Bytes} (hb : packet.Bytes = .ok buf) {c : Conn} {e : GoError} :
    Send conn tid packet ≠ (c, .error e) := by
  intro h
  obtain ⟨n, hn⟩ := (Send_sent_ok hw tid hb).2
  rw [h] at hn
  cases hn

theorem Recv_sent {conn conn1 : Conn} {tid : Addr} {r : Except GoError Raw}
    (h : Recv conn tid = some (conn1, r)) : conn1.sent = conn.sent := by
  unfold Recv ReadFrom at h
  cases hr : conn.reads with
  | nil => simp [hr] at h
  | cons x rest =>
    rw [hr] at h
    cases x with
    | fail err =>
      simp only [Option.some.injEq, Prod.mk.injEq] at h
      rw [← h.1]
    | datagram addr d =>
      simp only at h
      split at h
      · simp only [Option.some.injEq, Prod.mk.injEq] at h
        rw [← h.1]
      · split at h <;>
        · simp only [Option.some.injEq, Prod.mk.injEq] at h
          rw [← h.1]

/-- The datagrams written before a call of the loop of `Transmit` stay, in
order, at the head of those written after it. -/
theorem transmitLoop_sent_grows (tid : Addr) (packet : Packet) :
    ∀ (fuel : Nat) (conn : Conn) (try_ : Nat) (conn1 : Conn) (raw : Raw) (err : Option GoError),
      transmitLoop tid packet fuel conn try_ = some (conn1, raw, err) →
      conn.sent <+: conn1.sent := by
  intro fuel
  induction fuel with
  | zero => intro conn try_ conn1 raw err h; simp [transmitLoop] at h
  | succ fuel ih =>
    intro conn try_ conn1 raw err h
    rw [transmitLoop] at h
    have hs1 := Send_sent_grows conn tid packet
    rcases hs : Send conn tid packet with ⟨c1, r1⟩
    rw [hs] at hs1 h
    cases r1 with
    | error e =>
      simp only [Option.some.injEq, Prod.mk.injEq] at h
      rw [← h.1]
      exact hs1
    | ok n =>
      simp only at h
      cases hrecv : Recv c1 tid with
      | none => simp [hrecv] at h
      | some p =>
        rcases p with ⟨c2, r2⟩
        have hc2 := Recv_sent hrecv
        rw [hrecv] at h
        have h12 : conn.sent <+: c2.sent := by rw [hc2]; exact hs1
        cases r2 with
        | ok raw2 =>
          simp only [Option.some.injEq, Prod.mk.injEq] at h
          rw [← h.1]
          exact h12
        | error e =>
          cases e with
          | timeout msg =>
            simp only at h
            split at h
            · simp only [Option.some.injEq, Prod.mk.injEq] at h
              rw [← h.1]
              exact h12
            · exact h12.trans (ih _ _ _ _ _ h)
          | tid t =>
            simp only at h
            exact (h12.trans (Send_sent_grows _ _ _)).trans (ih _ _ _ _ _ h)
          | other msg =>
            simp only [Option.some.injEq, Prod.mk.injEq] at h
            rw [← h.1]
            exact h12

/-- When its first write succeeds, what a call of `Transmit` writes starts
with the packet to the expected remote. -/
theorem Transmit_first_send {conn conn1 : Conn} {tid : Addr} {packet : Packet} {buf : Bytes}
    {raw : Raw} {err : Option GoError} (hw : conn.wfail conn.writes = none)
    (hb : packet.Bytes = .ok buf) (h : Transmit conn tid packet = some (conn1, raw, err)) :
    conn.sent ++ [(tid, buf)] <+: conn1.sent := by
  rw [Transmit, transmitLoop] at h
  obtain ⟨hsent, n, hn⟩ := Send_sent_ok hw tid hb
  rcases hs : Send conn tid packet with ⟨c1, r1⟩
  rw [hs] at hsent hn h
  simp only at hsent hn
  subst hn
  simp only at h
  cases hrecv : Recv c1 tid with
  | none => simp [hrecv] at h
  | some p =>
    rcases p with ⟨c2, r2⟩
    have hc2 := Recv_sent hrecv
    rw [hrecv] at h
    have h12 : conn.sent ++ [(tid, buf)] <+: c2.sent := by rw [hc2, hsent]
    cases r2 with
    | ok raw2 =>
      simp only [Option.some.injEq, Prod.mk.injEq] at h
      rw [← h.1]
      exact h12
    | error e =>
      cases e with
      | timeout msg =>
        simp only at h
        split at h
        · simp only [Option.some.injEq, Prod.mk.injEq] at h
          rw [← h.1]
          exact h12
        · exact h12.trans (transmitLoop_sent_grows _ _ _ _ _ _ _ _ h)
      | tid t =>
        simp only at h
        exact (h12.trans (Send_sent_grows _ _ _)).trans
          (transmitLoop_sent_grows _ _ _ _ _ _ _ _ h)
      | other msg =>
        simp only [Option.some.injEq, Prod.mk.injEq] at h
        rw [← h.1]
        exact h12

theorem Transmit_sent_grows {conn conn1 : Conn} {tid : Addr} {packet : Packet}
    {raw : Raw} {err : Option GoError} (h : Transmit conn tid packet = some (conn1, raw, err)) :
    conn.sent <+: conn1.sent :=
  transmitLoop_sent_grows _ _ _ _ _ _ _ _ h

theorem writeLoop_sent_grows (tid : Addr) :
    ∀ (fuel : Nat) (conn : Conn) (blk : Nat) (dat : Bytes) (conn1 : Conn) (ex : WriteExit),
      writeLoop tid fuel conn blk dat = some (conn1, ex) → conn.sent <+: conn1.sent := by
  intro fuel
  induction fuel with
  | zero => intro conn blk dat conn1 ex h; simp [writeLoop] at h
  | succ fuel ih =>
    intro conn blk dat conn1 ex h
    rw [writeLoop] at h
    cases hT : Transmit conn tid (.ack ⟨blk⟩) with
    | none => simp [hT] at h
    | some p =>
      rcases p with ⟨c1, raw, err⟩
      have h1 := Transmit_sent_grows hT
      rw [hT] at h
      cases err with
      | some e =>
        cases raw <;>
          simp only [Option.some.injEq, Prod.mk.injEq] at h <;>
          first
          | (rw [← h.1]; exact h1)
          | (rw [← h.1]; exact h1.trans (Send_sent_grows _ _ _))
      | none =>
        cases raw with
        | data packet =>
          simp only at h
          split at h
          · simp only [Option.some.injEq, Prod.mk.injEq] at h
            rw [← h.1]; exact h1
          · exact h1.trans (ih _ _ _ _ _ h)
        | err ep =>
          simp only [Option.some.injEq, Prod.mk.injEq] at h
          rw [← h.1]; exact h1
        | read rp =>
          simp only [Option.some.injEq, Prod.mk.injEq] at h
          rw [← h.1]; exact h1.trans (Send_sent_grows _ _ _)
        | write wp =>
          simp only [Option.some.injEq, Prod.mk.injEq] at h
          rw [← h.1]; exact h1.trans (Send_sent_grows _ _ _)
        | ack ap =>
          simp only [Option.some.injEq, Prod.mk.injEq] at h
          rw [← h.1]; exact h1.trans (Send_sent_grows _ _ _)

/-- When its first write succeeds, what the receive loop of `HandleWrite`
writes from a given state starts with the Ack of the expected block. -/
theorem writeLoop_first_send {tid : Addr} {fuel : Nat} {conn conn1 : Conn} {blk : Nat}
    {dat A : Bytes} {ex : WriteExit} (hw : conn.wfail conn.writes = none)
    (hA : (Packet.ack ⟨blk⟩).Bytes = .ok A)
    (h : writeLoop tid fuel conn blk dat = some (conn1, ex)) :
    conn.sent ++ [(tid, A)] <+: conn1.sent := by
  cases fuel with
  | zero => simp [writeLoop] at h
  | succ fuel =>
    rw [writeLoop] at h
    cases hT : Transmit conn tid (.ack ⟨blk⟩) with
    | none => simp [hT] at h
    | some p =>
      rcases p with ⟨c1, raw, err⟩
      have h1 := Transmit_first_send hw hA hT
      rw [hT] at h
      cases err with
      | some e =>
        cases raw <;>
          simp only [Option.some.injEq, Prod.mk.injEq] at h <;>
          first
          | (rw [← h.1]; exact h1)
          | (rw [← h.1]; exact h1.trans (Send_sent_grows _ _ _))
      | none =>
        cases raw with
        | data packet =>
          simp only at h
          split at h
          · simp only [Option.some.injEq, Prod.mk.injEq] at h
            rw [← h.1]; exact h1
          · exact h1.trans (writeLoop_sent_grows _ _ _ _ _ _ _ h)
        | err ep =>
          simp only [Option.some.injEq, Prod.mk.injEq] at h
          rw [← h.1]; exact h1
        | read rp =>
          simp only [Option.some.injEq, Prod.mk.injEq] at h
          rw [← h.1]; exact h1.trans (Send_sent_grows _ _ _)
        | write wp =>
          simp only [Option.some.injEq, Prod.mk.injEq] at h
          rw [← h.1]; exact h1.trans (Send_sent_grows _ _ _)
        | ack ap =>
          simp only [Option.some.injEq, Prod.mk.injEq] at h
          rw [← h.1]; exact h1.trans (Send_sent_grows _ _ _)

theorem readLoop_sent_grows (tid : Addr) (dat : Bytes) :
    ∀ (fuel : Nat) (conn : Conn) (pos blk : Nat) (conn1 : Conn) (ex : Exit),
      readLoop tid dat fuel conn pos blk = some (conn1, ex) → conn.sent <+: conn1.sent := by
  intro fuel
  induction fuel with
  | zero => intro conn pos blk conn1 ex h; simp [readLoop] at h
  | succ fuel ih =>
    intro conn pos blk conn1 ex h
    rw [readLoop] at h
    split at h
    · simp only at h
      cases hT : Transmit conn tid
          (.data ⟨blk, (dat.take (min (pos + blockSize) dat.length)).drop pos⟩) with
      | none => simp [hT] at h
      | some p =>
        rcases p with ⟨c1, raw, err⟩
        have h1 := Transmit_sent_grows hT
        rw [hT] at h
        cases err with
        | some e =>
          cases raw <;>
            simp only [Option.some.injEq, Prod.mk.injEq] at h <;>
            first
            | (rw [← h.1]; exact h1)
            | (rw [← h.1]; exact h1.trans (Send_sent_grows _ _ _))
        | none =>
          cases raw with
          | ack packet =>
            simp only at h
            split at h
            · exact h1.trans (ih _ _ _ _ _ h)
            · exact h1.trans (ih _ _ _ _ _ h)
          | err ep =>
            simp only [Option.some.injEq, Prod.mk.injEq] at h
            rw [← h.1]; exact h1
          | read rp =>
            simp only [Option.some.injEq, Prod.mk.injEq] at h
            rw [← h.1]; exact h1.trans (Send_sent_grows _ _ _)
          | write wp =>
            simp only [Option.some.injEq, Prod.mk.injEq] at h
            rw [← h.1]; exact h1.trans (Send_sent_grows _ _ _)
          | data dp =>
            simp only [Option.some.injEq, Prod.mk.injEq] at h
            rw [← h.1]; exact h1.trans (Send_sent_grows _ _ _)
    · simp only [Option.some.injEq, Prod.mk.injEq] at h
      rw [← h.1]

/-- When its first write succeeds, what the loop of `HandleRead` writes from a
position inside the file starts with the Data packet of that position and
block number. -/
theorem readLoop_first_send {tid : Addr} {dat : Bytes} {fuel : Nat} {conn conn1 : Conn}
    {pos blk : Nat} {D : Bytes} {ex : Exit} (hw : conn.wfail conn.writes = none)
    (hpos : pos < dat.length)
    (hD : (Packet.data ⟨blk, (dat.take (min (pos + blockSize) dat.length)).drop pos⟩).Bytes = .ok D)
    (h : readLoop tid dat fuel conn pos blk = some (conn1, ex)) :
    conn.sent ++ [(tid, D)] <+: conn1.sent := by
  cases fuel with
  | zero => simp [readLoop] at h
  | succ fuel =>
    rw [readLoop, if_pos hpos] at h
    simp only at h
    cases hT : Transmit conn tid
        (.data ⟨blk, (dat.take (min (pos + blockSize) dat.length)).drop pos⟩) with
    | none => simp [hT] at h
    | some p =>
      rcases p with ⟨c1, raw, err⟩
      have h1 := Transmit_first_send hw hD hT
      rw [hT] at h
      cases err with
      | some e =>
        cases raw <;>
          simp only [Option.some.injEq, Prod.mk.injEq] at h <;>
          first
          | (rw [← h.1]; exact h1)
          | (rw [← h.1]; exact h1.trans (Send_sent_grows _ _ _))
      | none =>
        cases raw with
        | ack packet =>
          simp only at h
          split at h
          · exact h1.trans (readLoop_sent_grows _ _ _ _ _ _ _ _ h)
          · exact h1.trans (readLoop_sent_grows _ _ _ _ _ _ _ _ h)
        | err ep =>
          simp only [Option.some.injEq, Prod.mk.injEq] at h
          rw [← h.1]; exact h1
        | read rp =>
          simp only [Option.some.injEq, Prod.mk.injEq] at h
          rw [← h.1]; exact h1.trans (Send_sent_grows _ _ _)
        | write wp =>
          simp only [Option.some.injEq, Prod.mk.injEq] at h
          rw [← h.1]; exact h1.trans (Send_sent_grows _ _ _)
        | data dp =>
          simp only [Option.some.injEq, Prod.mk.injEq] at h
          rw [← h.1]; exact h1.trans (Send_sent_grows _ _ _)

/-! ## One turn of the loops -/

/-- One turn of the receive loop of `HandleWrite` in which `Transmit` returns
a Data packet. -/
theorem writeLoop_data {tid : Addr} {conn conn1 : Conn} {blk : Nat} {packet : DataPacket}
    (hT : Transmit conn tid (.ack ⟨blk⟩) = some (conn1, .data packet, none)) (fuel : Nat)
    (dat : Bytes) :
    writeLoop tid (fuel + 1) conn blk dat =
      if packet.Data.length < blockSize then
        some (conn1, .done (if packet.Block = (blk + 1) % 65536 then packet.Block else blk)
          (if packet.Block = (blk + 1) % 65536 then dat ++ packet.Data else dat))
      else
        writeLoop tid fuel conn1 (if packet.Block = (blk + 1) % 65536 then packet.Block else blk)
          (if packet.Block = (blk + 1) % 65536 then dat ++ packet.Data else dat) := by
  rw [writeLoop, hT]

/-- One turn of the loop of `HandleRead` in which `Transmit` returns an Ack. -/
theorem readLoop_ack {tid : Addr} {dat : Bytes} {conn conn1 : Conn} {pos blk : Nat}
    {packet : AckPacket} (hpos : pos < dat.length)
    (hT : Transmit conn tid
      (.data ⟨blk, (dat.take (min (pos + blockSize) dat.length)).drop pos⟩) =
        some (conn1, .ack packet, none)) (fuel : Nat) :
    readLoop tid dat (fuel + 1) conn pos blk =
      if blk = packet.Block then
        readLoop tid dat fuel conn1 (min (pos + blockSize) dat.length) ((blk + 1) % 65536)
      else readLoop tid dat fuel conn1 pos blk := by
  rw [readLoop, if_pos hpos]
  simp only [hT]

/-! ## The loops return once the peers are silent -/

/-- On a connection whose coming receives are all timeouts, enough of them to
reach the bound, the loop of `Transmit` returns a failure. -/
theorem transmitLoop_silence (tid : Addr) (packet : Packet) (m : GoString) :
    ∀ (k : Nat) (conn : Conn) (fuel try_ : Nat), conn.noWriteFailure →
      conn.reads = List.replicate k (.fail (.timeout m)) → try_ < maxTimeout →
      maxTimeout ≤ try_ + k → k < fuel →
      ∃ c raw e, transmitLoop tid packet fuel conn try_ = some (c, raw, some e) ∧
        c.noWriteFailure := by
  obtain ⟨buf, hb⟩ := Packet.Bytes_ok packet
  intro k
  induction k with
  | zero => intro conn fuel try_ _ _ h1 h2 _; omega
  | succ k ih =>
    intro conn fuel try_ hw hr h1 h2 hf
    obtain ⟨fuel, rfl⟩ : ∃ f, fuel = f + 1 := ⟨fuel - 1, by omega⟩
    have hr1 : conn.reads = .fail (.timeout m) :: List.replicate k (.fail (.timeout m)) := by
      rw [hr, List.replicate_succ]
    by_cases hlast : maxTimeout ≤ try_ + 1
    · exact ⟨_, _, _, transmitLoop_timeout_last hw hb hr1 fuel hlast,
        Conn.noWriteFailure_after hw _ _⟩
    · rw [transmitLoop_timeout_retry hw hb hr1 fuel (by omega)]
      exact ih _ fuel (try_ + 1) (Conn.noWriteFailure_after hw _ _) rfl (by omega) (by omega)
        (by omega)

/-- On a connection without write failure whose receive outcomes end in `k`
timeouts, enough to reach the bound from the current count, the loop of
`Transmit` returns; when it returns without failure, the `k` timeouts are
still to come. -/
theorem transmitLoop_returns (tid : Addr) (packet : Packet) (m : GoString) (k : Nat) :
    ∀ (s : List ReadResult) (conn : Conn) (fuel try_ : Nat), conn.noWriteFailure →
      conn.reads = s ++ List.replicate k (.fail (.timeout m)) → try_ < maxTimeout →
      maxTimeout ≤ try_ + k → s.length + k < fuel →
      ∃ c raw err, transmitLoop tid packet fuel conn try_ = some (c, raw, err) ∧
        c.noWriteFailure ∧
        (err = none → ∃ s1, c.reads = s1 ++ List.replicate k (.fail (.timeout m)) ∧
          s1.length < s.length) := by
  obtain ⟨buf, hb⟩ := Packet.Bytes_ok packet
  obtain ⟨e5, he5⟩ := Packet.Bytes_ok (.err ⟨5, str "Unknown transfer ID"⟩)
  intro s
  induction s with
  | nil =>
    intro conn fuel try_ hw hr h1 h2 hf
    obtain ⟨c, raw, e, h, hc⟩ := transmitLoop_silence tid packet m k conn fuel try_ hw
      (by simpa using hr) h1 h2 (by simpa using hf)
    exact ⟨c, raw, some e, h, hc, fun h => by cases h⟩
  | cons r s ih =>
    intro conn fuel try_ hw hr0 h1 h2 hf
    have hr : conn.reads = r :: (s ++ List.replicate k (.fail (.timeout m))) := hr0
    obtain ⟨fuel, rfl⟩ : ∃ f, fuel = f + 1 := ⟨fuel - 1, by omega⟩
    have hf1 : s.length + k < fuel := by simp at hf; omega
    have hnext : ∀ (out : List (Addr × Bytes)) (t : Nat), t < maxTimeout → maxTimeout ≤ t + k →
        ∃ c raw err, transmitLoop tid packet fuel
            (conn.after (s ++ List.replicate k (.fail (.timeout m))) out) t = some (c, raw, err) ∧
          c.noWriteFailure ∧
          (err = none → ∃ s1, c.reads = s1 ++ List.replicate k (.fail (.timeout m)) ∧
            s1.length < (r :: s).length) := by
      intro out t ht1 ht2
      obtain ⟨c, raw, err, h, hc, hs⟩ := ih _ fuel t (Conn.noWriteFailure_after hw _ out) rfl
        ht1 ht2 hf1
      refine ⟨c, raw, err, h, hc, fun he => ?_⟩
      obtain ⟨s1, hs1, hl⟩ := hs he
      exact ⟨s1, hs1, by simp; omega⟩
    cases r with
    | fail err =>
      cases err with
      | timeout m1 =>
        by_cases hlast : maxTimeout ≤ try_ + 1
        · exact ⟨_, _, _, transmitLoop_timeout_last hw hb hr fuel hlast,
            Conn.noWriteFailure_after hw _ _, fun h => by cases h⟩
        · rw [transmitLoop_timeout_retry hw hb hr fuel (by omega)]
          exact hnext _ (try_ + 1) (by omega) (by omega)
      | tid t =>
        rw [transmitLoop_tidError hw hb he5 hr]
        exact hnext _ try_ h1 h2
      | other msg =>
        exact ⟨_, _, _, transmitLoop_read_error hw hb hr fuel try_,
          Conn.noWriteFailure_after hw _ _, fun h => by cases h⟩
    | datagram addr d =>
      by_cases ha : addr.String = tid.String
      · cases hd : MakePacket (d.take 1024) with
        | error e =>
          exact ⟨_, _, _, transmitLoop_undecodable hw hb hr ha hd fuel try_,
            Conn.noWriteFailure_after hw _ _, fun h => by cases h⟩
        | ok raw =>
          exact ⟨_, _, _, transmitLoop_received hw hb hr ha hd fuel try_,
            Conn.noWriteFailure_after hw _ _, fun _ => ⟨s, rfl, by simp⟩⟩
      · rw [transmitLoop_wrong_addr hw hb he5 hr ha]
        exact hnext _ try_ h1 h2

/-- A call of `Transmit` on a connection without write failure whose receive
outcomes end in silence returns; when it returns without failure the
silence is still to come. -/
theorem Transmit_returns (tid : Addr) (packet : Packet) (m : GoString) {s : List ReadResult}
    {conn : Conn} (hw : conn.noWriteFailure) (hr : conn.reads = s ++ silence m) :
    ∃ c raw err, Transmit conn tid packet = some (c, raw, err) ∧ c.noWriteFailure ∧
      (err = none → ∃ s1, c.reads = s1 ++ silence m ∧ s1.length < s.length) := by
  have hlen : s.length + maxTimeout < conn.reads.length + 1 := by
    simp [hr, silence]
  exact transmitLoop_returns tid packet m maxTimeout s conn _ 0 hw hr (by decide) (by simp) hlen

/-- The receive loop of `HandleWrite` on a connection without write failure
whose receive outcomes end in silence returns. -/
theorem writeLoop_returns (tid : Addr) (m : GoString) :
    ∀ (n : Nat) (s : List ReadResult) (conn : Conn) (fuel blk : Nat) (dat : Bytes),
      s.length ≤ n → conn.noWriteFailure → conn.reads = s ++ silence m →
      conn.reads.length < fuel →
      ∃ c ex, writeLoop tid fuel conn blk dat = some (c, ex) := by
  intro n
  induction n with
  | zero =>
    intro s conn fuel blk dat hn hw hr hf
    obtain ⟨fuel, rfl⟩ : ∃ f, fuel = f + 1 := ⟨fuel - 1, by omega⟩
    obtain ⟨c, raw, err, hT, -, hs⟩ := Transmit_returns tid (.ack ⟨blk⟩) m hw hr
    cases err with
    | none =>
      obtain ⟨s1, -, hl⟩ := hs rfl
      omega
    | some e =>
      obtain ⟨ep, rfl, -⟩ := Transmit_failure hT
      exact ⟨_, _, by rw [writeLoop, hT]⟩
  | succ n ih =>
    intro s conn fuel blk dat hn hw hr hf
    obtain ⟨fuel, rfl⟩ : ∃ f, fuel = f + 1 := ⟨fuel - 1, by omega⟩
    obtain ⟨c, raw, err, hT, hc, hs⟩ := Transmit_returns tid (.ack ⟨blk⟩) m hw hr
    cases err with
    | some e =>
      obtain ⟨ep, rfl, -⟩ := Transmit_failure hT
      exact ⟨_, _, by rw [writeLoop, hT]⟩
    | none =>
      obtain ⟨s1, hs1, hl⟩ := hs rfl
      cases raw with
      | data packet =>
        rw [writeLoop_data hT]
        split
        · exact ⟨_, _, rfl⟩
        · refine ih s1 c fuel _ _ (by omega) hc hs1 ?_
          have := Transmit_reads hT
          omega
      | err ep => exact ⟨_, _, by rw [writeLoop, hT]⟩
      | read rp => exact ⟨_, _, by rw [writeLoop, hT]⟩
      | write wp => exact ⟨_, _, by rw [writeLoop, hT]⟩
      | ack ap => exact ⟨_, _, by rw [writeLoop, hT]⟩

/-- The loop of `HandleRead` on a connection without write failure whose
receive outcomes end in silence returns. -/
theorem readLoop_returns (tid : Addr) (dat : Bytes) (m : GoString) :
    ∀ (n : Nat) (s : List ReadResult) (conn : Conn) (fuel pos blk : Nat),
      s.length ≤ n → conn.noWriteFailure → conn.reads = s ++ silence m →
      conn.reads.length < fuel →
      ∃ c ex, readLoop tid dat fuel conn pos blk = some (c, ex) := by
  intro n
  induction n with
  | zero =>
    intro s conn fuel pos blk hn hw hr hf
    obtain ⟨fuel, rfl⟩ : ∃ f, fuel = f + 1 := ⟨fuel - 1, by omega⟩
    by_cases hpos : pos < dat.length
    · obtain ⟨c, raw, err, hT, -, hs⟩ := Transmit_returns tid
        (.data ⟨blk, (dat.take (min (pos + blockSize) dat.length)).drop pos⟩) m hw hr
      cases err with
      | none =>
        obtain ⟨s1, -, hl⟩ := hs rfl
        omega
      | some e =>
        obtain ⟨ep, rfl, -⟩ := Transmit_failure hT
        exact ⟨_, _, by rw [readLoop, if_pos hpos]; simp only [hT]; rfl⟩
    · exact ⟨_, _, by rw [readLoop, if_neg hpos]⟩
  | succ n ih =>
    intro s conn fuel pos blk hn hw hr hf
    obtain ⟨fuel, rfl⟩ : ∃ f, fuel = f + 1 := ⟨fuel - 1, by omega⟩
    by_cases hpos : pos < dat.length
    · obtain ⟨c, raw, err, hT, hc, hs⟩ := Transmit_returns tid
        (.data ⟨blk, (dat.take (min (pos + blockSize) dat.length)).drop pos⟩) m hw hr
      cases err with
      | some e =>
        obtain ⟨ep, rfl, -⟩ := Transmit_failure hT
        exact ⟨_, _, by rw [readLoop, if_pos hpos]; simp only [hT]; rfl⟩
      | none =>
        obtain ⟨s1, hs1, hl⟩ := hs rfl
        have hlt := Transmit_reads hT
        cases raw with
        | ack packet =>
          rw [readLoop_ack hpos hT]
          split
          · exact ih s1 c fuel _ _ (by omega) hc hs1 (by omega)
          · exact ih s1 c fuel _ _ (by omega) hc hs1 (by omega)
        | err ep => exact ⟨_, _, by rw [readLoop, if_pos hpos]; simp only [hT]; rfl⟩
        | read rp => exact ⟨_, _, by rw [readLoop, if_pos hpos]; simp only [hT]; rfl⟩
        | write wp => exact ⟨_, _, by rw [readLoop, if_pos hpos]; simp only [hT]; rfl⟩
        | data dp => exact ⟨_, _, by rw [readLoop, if_pos hpos]; simp only [hT]; rfl⟩
    · exact ⟨_, _, by rw [readLoop, if_neg hpos]⟩

/-- On a connection without write failure whose receive outcomes end in
silence, the receive loop of `HandleWrite` returns, and what it has written
starts with the Ack of its expected block. -/
theorem writeLoop_next_send {tid : Addr} {conn : Conn} {fuel blk : Nat} {dat A : Bytes}
    {rest : List ReadResult} {m : GoString} (hw : conn.noWriteFailure)
    (hr : conn.reads = rest ++ silence m) (hf : conn.reads.length < fuel)
    (hA : (Packet.ack ⟨blk⟩).Bytes = .ok A) :
    ∃ c ex, writeLoop tid fuel conn blk dat = some (c, ex) ∧
      conn.sent ++ [(tid, A)] <+: c.sent := by
  obtain ⟨c, ex, h⟩ := writeLoop_returns tid m rest.length rest conn fuel blk dat
    (Nat.le_refl _) hw hr hf
  exact ⟨c, ex, h, writeLoop_first_send (hw _) hA h⟩

/-- On a connection without write failure whose receive outcomes end in
silence, the loop of `HandleRead` at a position inside the file returns, and
what it has written starts with the Data packet of that position and block
number. -/
theorem readLoop_next_send {tid : Addr} {dat : Bytes} {conn : Conn} {fuel pos blk : Nat}
    {D : Bytes} {rest : List ReadResult} {m : GoString} (hw : conn.noWriteFailure)
    (hr : conn.reads = rest ++ silence m) (hf : conn.reads.length < fuel)
    (hpos : pos < dat.length)
    (hD : (Packet.data ⟨blk, (dat.take (min (pos + blockSize) dat.length)).drop pos⟩).Bytes =
      .ok D) :
    ∃ c ex, readLoop tid dat fuel conn pos blk = some (c, ex) ∧
      conn.sent ++ [(tid, D)] <+: c.sent := by
  obtain ⟨c, ex, h⟩ := readLoop_returns tid dat m rest.length rest conn fuel pos blk
    (Nat.le_refl _) hw hr hf
  exact ⟨c, ex, h, readLoop_first_send (hw _) hpos hD h⟩


/-! ## HandleWrite: blocks out of order and aborts -/

theorem sample_full_block :
    MakePacket (List.take 1024 ([0, 3, 0, 5] ++ List.replicate 512 7)) =
      .ok (.data ⟨5, List.replicate 512 7⟩) := by
  rw [List.take_of_length_le (by rw [List.length_append, List.length_replicate]; decide)]
  exact MakePacket_data_wire (by decide : 5 < 65536) _

theorem sample_mismatch_transmit :
    Transmit sampleMismatch sampleTid (.ack ⟨0⟩) =
      some (sampleMismatch.after (silence [1]) [(sampleTid, [0, 4, 0, 0])],
        .data ⟨5, List.replicate 512 7⟩, none) := by
  refine @Transmit_received _ _ _ _ ?_ ?_ sampleTid _ _ ?_ ?_ _ sample_full_block
  · exact fun _ => rfl
  · rfl
  · rfl
  · rfl

/-- C12: in the receive loop of `HandleWrite`, when `Transmit` returns a Data
packet with at least 512 payload bytes whose block number is not the
expected block plus one, the loop goes on with the same expected block and
the same buffer, and the next packet it writes is the Ack of that same
expected block. Whatever the peers do next, once they are silent the loop
has returned and what it wrote after that Data packet starts with this
Ack; when the block in order, short, comes next, the loop ends having
written exactly this Ack, with that block accepted and its payload alone
added to the buffer; and on every continuation on which the loop returns,
what it wrote starts with this Ack. -/
theorem mismatched_full_block_ignored (tid : Addr) (conn conn1 : Conn) (fuel blk : Nat)
    (dat A : Bytes) (packet : DataPacket)
    (hT : Transmit conn tid (.ack ⟨blk⟩) = some (conn1, .data packet, none))
    (hblk : packet.Block ≠ (blk + 1) % 65536) (hfull : 512 ≤ packet.Data.length)
    (hA : (Packet.ack ⟨blk⟩).Bytes = .ok A) (hw : conn1.wfail conn1.writes = none) :
    writeLoop tid (fuel + 1) conn blk dat = writeLoop tid fuel conn1 blk dat ∧
    (∀ (rest : List ReadResult) (m : GoString), conn1.noWriteFailure →
      conn1.reads = rest ++ silence m → conn.reads.length ≤ fuel →
      ∃ c ex, writeLoop tid (fuel + 1) conn blk dat = some (c, ex) ∧
        conn1.sent ++ [(tid, A)] <+: c.sent) ∧
    (∀ (src : Addr) (d last : Bytes) (rest : List ReadResult), conn1.noWriteFailure →
      conn1.reads = .datagram src d :: rest → src.String = tid.String →
      MakePacket (d.take 1024) = .ok (.data ⟨(blk + 1) % 65536, last⟩) → last.length < 512 →
      1 ≤ fuel →
      writeLoop tid (fuel + 1) conn blk dat =
        some (conn1.after rest [(tid, A)], .done ((blk + 1) % 65536) (dat ++ last))) ∧
    (∀ c ex, writeLoop tid (fuel + 1) conn blk dat = some (c, ex) →
      conn1.sent ++ [(tid, A)] <+: c.sent) := by
  have hstep : writeLoop tid (fuel + 1) conn blk dat = writeLoop tid fuel conn1 blk dat := by
    have hnot : ¬ packet.Data.length < blockSize := by simp [blockSize]; omega
    rw [writeLoop_data hT, if_neg hnot, if_neg hblk, if_neg hblk]
  refine ⟨hstep, ?_, ?_, ?_⟩
  · intro rest m hw1 hr hf
    rw [hstep]
    have hlt := Transmit_reads hT
    exact writeLoop_next_send hw1 hr (by omega) hA
  · intro src d last rest hw1 hr hsrc hd hlast hf
    obtain ⟨f, rfl⟩ : ∃ f, fuel = f + 1 := ⟨fuel - 1, by omega⟩
    have hT1 := Transmit_received hw1 hA hr hsrc hd
    have hshort : (DataPacket.mk ((blk + 1) % 65536) last).Data.length < blockSize := by
      simpa [blockSize] using hlast
    rw [hstep, writeLoop_data hT1, if_pos hshort, if_pos rfl, if_pos rfl]
  · intro c ex h
    rw [hstep] at h
    exact writeLoop_first_send hw hA h

theorem mismatched_full_block_ignored_witness :
    ∃ c ex, writeLoop sampleTid (6 + 1) sampleMismatch 0 [] = some (c, ex) ∧
      (sampleMismatch.after (silence [1]) [(sampleTid, [0, 4, 0, 0])]).sent ++
        [(sampleTid, [0, 4, 0, 0])] <+: c.sent :=
  (mismatched_full_block_ignored sampleTid sampleMismatch
    (sampleMismatch.after (silence [1]) [(sampleTid, [0, 4, 0, 0])])
    6 0 [] [0, 4, 0, 0] ⟨5, List.replicate 512 7⟩ sample_mismatch_transmit (by decide)
    (List.length_replicate _ _).ge rfl rfl).2.1 [] [1] (fun _ => rfl) rfl (by decide)

theorem Send_ok_once {conn : Conn} (hw : conn.wfail conn.writes = none) (tid : Addr)
    {packet : Packet} {buf : Bytes} (hb : packet.Bytes = .ok buf) :
    Send conn tid packet = (conn.after conn.reads [(tid, buf)], .ok buf.length) := by
  simp [Send, hb, WriteTo, hw, Conn.after]

/-- The handler `HandleWrite` after its receive loop ended by a return. -/
theorem HandleWrite_of_stop {σ : Type} {conn conn1 : Conn} {tid : Addr} {e : Exit}
    (h : writeLoop tid (conn.reads.length + 1) conn 0 [] = some (conn1, .stop e))
    (wp : WritePacket) (S : Storage σ) (store : σ) :
    HandleWrite conn tid wp S store = some (conn1, store, e) := by
  simp [HandleWrite, h]

/-- The handler `HandleWrite` after its receive loop ended with `reading`
false, on a `MemStore` and when the final Ack is written with success. -/
theorem HandleWrite_of_done {conn conn1 : Conn} {tid : Addr} {blk : Nat} {dat A : Bytes}
    (h : writeLoop tid (conn.reads.length + 1) conn 0 [] = some (conn1, .done blk dat))
    (hA : (Packet.ack ⟨blk⟩).Bytes = .ok A) (hw : conn1.wfail conn1.writes = none)
    (wp : WritePacket) (store : MemStore) :
    HandleWrite conn tid wp memStorage store =
      some (conn1.after conn1.reads [(tid, A)], (store.Put wp.File dat).1, .returned) := by
  simp [HandleWrite, h, memStorage, MemStore.Put, Send_ok_once hw tid hA]

/-- C13: in `HandleWrite`, when `Transmit` returns a Data packet with fewer
than 512 payload bytes whose block number is not the expected block plus
one, the receive loop ends with the expected block and the buffer as they
were, and the handler stores that buffer under the file name and writes one
final Ack of the expected block. The state of the loop is any state that
the run of the handler reaches. -/
theorem short_mismatched_block_ends_write (tid : Addr) (conn0 conn conn1 : Conn)
    (wp : WritePacket) (store : MemStore) (fuel blk : Nat) (dat A : Bytes) (packet : DataPacket)
    (hreach : writeLoop tid (conn0.reads.length + 1) conn0 0 [] =
      writeLoop tid (fuel + 1) conn blk dat)
    (hT : Transmit conn tid (.ack ⟨blk⟩) = some (conn1, .data packet, none))
    (hblk : packet.Block ≠ (blk + 1) % 65536) (hshort : packet.Data.length < 512)
    (hA : (Packet.ack ⟨blk⟩).Bytes = .ok A) (hw : conn1.wfail conn1.writes = none) :
    writeLoop tid (fuel + 1) conn blk dat = some (conn1, .done blk dat) ∧
    HandleWrite conn0 tid wp memStorage store =
      some (conn1.after conn1.reads [(tid, A)], (store.Put wp.File dat).1, .returned) ∧
    (store.Put wp.File dat).1.Get wp.File = .ok dat := by
  have hloop : writeLoop tid (fuel + 1) conn blk dat = some (conn1, .done blk dat) := by
    rw [writeLoop_data hT, if_pos (by simpa [blockSize] using hshort), if_neg hblk, if_neg hblk]
  refine ⟨hloop, HandleWrite_of_done (hreach.trans hloop) hA hw wp store, ?_⟩
  simp [MemStore.Put, MemStore.Get]

theorem short_mismatched_block_ends_write_witness :
    HandleWrite (sampleConn [.datagram sampleTid [0, 3, 0, 2, 65]]) sampleTid
        ⟨[70], str "octet"⟩ memStorage NewMemStore =
      some (((sampleConn [.datagram sampleTid [0, 3, 0, 2, 65]]).after []
            [(sampleTid, [0, 4, 0, 0])]).after [] [(sampleTid, [0, 4, 0, 0])],
        (NewMemStore.Put [70] []).1, .returned) :=
  (short_mismatched_block_ends_write sampleTid
    (sampleConn [.datagram sampleTid [0, 3, 0, 2, 65]])
    (sampleConn [.datagram sampleTid [0, 3, 0, 2, 65]])
    ((sampleConn [.datagram sampleTid [0, 3, 0, 2, 65]]).after [] [(sampleTid, [0, 4, 0, 0])])
    ⟨[70], str "octet"⟩ NewMemStore 1 0 [] [0, 4, 0, 0] ⟨2, [65]⟩ rfl rfl (by decide)
    (by decide) rfl rfl).2.1

/-- C14: in `HandleWrite`, at any state that the run reaches, when `Transmit`
returns a received Error packet, or a received packet that is neither Data
nor Error, or a failure, the handler returns with the store as it was
(`Put` is not called). After a received Error packet nothing more is
written; after another packet the handler does one `Send` of the Error
packet with code 0 and text "Invalid packet op"; after a failure it does
one `Send` of the Error packet, of code 0, that `Transmit` returned. No
Ack is written in either case. -/
theorem aborted_write_keeps_store {σ : Type} (tid : Addr) (conn0 conn conn1 : Conn)
    (wp : WritePacket) (S : Storage σ) (store : σ) (fuel blk : Nat) (dat : Bytes) (raw : Raw)
    (err : Option GoError)
    (hreach : writeLoop tid (conn0.reads.length + 1) conn0 0 [] =
      writeLoop tid (fuel + 1) conn blk dat)
    (hT : Transmit conn tid (.ack ⟨blk⟩) = some (conn1, raw, err))
    (habort : err ≠ none ∨ ∀ dp, raw ≠ .data dp) :
    ∃ c, HandleWrite conn0 tid wp S store = some (c, store, .returned) ∧
      (err = none → (∃ ep, raw = .err ep) → c = conn1) ∧
      (err = none → (∀ ep, raw ≠ .err ep) →
        c = (Send conn1 tid (.err ⟨0, str "Invalid packet op"⟩)).1) ∧
      (err ≠ none → ∃ ep, raw = .err ep ∧ ep.ErrCode = 0 ∧ c = (Send conn1 tid (.err ep)).1) := by
  cases err with
  | some e =>
    obtain ⟨ep, rfl, hcode⟩ := Transmit_failure hT
    have hloop : writeLoop tid (fuel + 1) conn blk dat =
        some ((Send conn1 tid (.err ep)).1, .stop .returned) := by
      rw [writeLoop, hT]
    exact ⟨_, HandleWrite_of_stop (hreach.trans hloop) wp S store,
      fun h => (by cases h), fun h => (by cases h), fun _ => ⟨ep, rfl, hcode, rfl⟩⟩
  | none =>
    have hnd : ∀ dp, raw ≠ .data dp := by
      rcases habort with h | h
      · exact absurd rfl h
      · exact h
    cases raw with
    | data dp => exact absurd rfl (hnd dp)
    | err ep =>
      have hloop : writeLoop tid (fuel + 1) conn blk dat = some (conn1, .stop .returned) := by
        rw [writeLoop, hT]
      exact ⟨_, HandleWrite_of_stop (hreach.trans hloop) wp S store,
        fun _ _ => rfl, fun _ h => absurd rfl (h ep), fun h => absurd rfl h⟩
    | read rp =>
      have hloop : writeLoop tid (fuel + 1) conn blk dat =
          some ((Send conn1 tid (.err ⟨0, str "Invalid packet op"⟩)).1, .stop .returned) := by
        rw [writeLoop, hT]
      exact ⟨_, HandleWrite_of_stop (hreach.trans hloop) wp S store,
        fun _ h => (by obtain ⟨ep, h⟩ := h; cases h), fun _ _ => rfl, fun h => absurd rfl h⟩
    | write wp1 =>
      have hloop : writeLoop tid (fuel + 1) conn blk dat =
          some ((Send conn1 tid (.err ⟨0, str "Invalid packet op"⟩)).1, .stop .returned) := by
        rw [writeLoop, hT]
      exact ⟨_, HandleWrite_of_stop (hreach.trans hloop) wp S store,
        fun _ h => (by obtain ⟨ep, h⟩ := h; cases h), fun _ _ => rfl, fun h => absurd rfl h⟩
    | ack ap =>
      have hloop : writeLoop tid (fuel + 1) conn blk dat =
          some ((Send conn1 tid (.err ⟨0, str "Invalid packet op"⟩)).1, .stop .returned) := by
        rw [writeLoop, hT]
      exact ⟨_, HandleWrite_of_stop (hreach.trans hloop) wp S store,
        fun _ h => (by obtain ⟨ep, h⟩ := h; cases h), fun _ _ => rfl, fun h => absurd rfl h⟩

theorem aborted_write_keeps_store_witness :
    ∃ c, HandleWrite (sampleConn [.datagram sampleTid [0, 4, 0, 9]]) sampleTid
        ⟨[70], str "octet"⟩ memStorage NewMemStore = some (c, NewMemStore, .returned) ∧
      ((none : Option GoError) = none → (∃ ep, Raw.ack ⟨9⟩ = .err ep) →
        c = (sampleConn [.datagram sampleTid [0, 4, 0, 9]]).after [] [(sampleTid, [0, 4, 0, 0])]) ∧
      ((none : Option GoError) = none → (∀ ep, Raw.ack ⟨9⟩ ≠ .err ep) →
        c = (Send ((sampleConn [.datagram sampleTid [0, 4, 0, 9]]).after []
          [(sampleTid, [0, 4, 0, 0])]) sampleTid (.err ⟨0, str "Invalid packet op"⟩)).1) ∧
      ((none : Option GoError) ≠ none → ∃ ep, Raw.ack ⟨9⟩ = .err ep ∧ ep.ErrCode = 0 ∧
        c = (Send ((sampleConn [.datagram sampleTid [0, 4, 0, 9]]).after []
          [(sampleTid, [0, 4, 0, 0])]) sampleTid (.err ep)).1) :=
  aborted_write_keeps_store sampleTid
    (sampleConn [.datagram sampleTid [0, 4, 0, 9]])
    (sampleConn [.datagram sampleTid [0, 4, 0, 9]])
    ((sampleConn [.datagram sampleTid [0, 4, 0, 9]]).after [] [(sampleTid, [0, 4, 0, 0])])
    ⟨[70], str "octet"⟩ memStorage NewMemStore 1 0 [] (.ack ⟨9⟩) none rfl rfl
    (Or.inr (fun dp h => by cases h))

/-! ## HandleRead: acknowledgments out of order, block numbers that wrap -/

/-- C15: in the loop of `HandleRead`, when `Transmit` returns an Ack whose
block number differs from the current one, the loop goes on with the same
position and block number, and the next packet it writes is, byte for byte,
the Data packet with which the preceding `Transmit` started. Whatever the
peers do next, once they are silent the loop has returned and what it wrote
after that Ack starts with this Data packet; when the Ack with the current
number comes next and the block is the last of the file, the loop returns
having written exactly this Data packet; and on every continuation on
which the loop returns, what it wrote starts with this Data packet. -/
theorem mismatched_ack_resends (tid : Addr) (dat : Bytes) (conn conn1 : Conn)
    (fuel pos blk : Nat) (D : Bytes) (packet : AckPacket) (hpos : pos < dat.length)
    (hD : (Packet.data ⟨blk, (dat.take (min (pos + blockSize) dat.length)).drop pos⟩).Bytes =
      .ok D)
    (hT : Transmit conn tid
      (.data ⟨blk, (dat.take (min (pos + blockSize) dat.length)).drop pos⟩) =
        some (conn1, .ack packet, none))
    (hblk : blk ≠ packet.Block)
    (hw : conn.wfail conn.writes = none) (hw1 : conn1.wfail conn1.writes = none) :
    readLoop tid dat (fuel + 1) conn pos blk = readLoop tid dat fuel conn1 pos blk ∧
    conn.sent ++ [(tid, D)] <+: conn1.sent ∧
    (∀ (rest : List ReadResult) (m : GoString), conn1.noWriteFailure →
      conn1.reads = rest ++ silence m → conn.reads.length ≤ fuel →
      ∃ c ex, readLoop tid dat (fuel + 1) conn pos blk = some (c, ex) ∧
        conn1.sent ++ [(tid, D)] <+: c.sent) ∧
    (∀ (src : Addr) (d : Bytes) (rest : List ReadResult), conn1.noWriteFailure →
      conn1.reads = .datagram src d :: rest → src.String = tid.String →
      MakePacket (d.take 1024) = .ok (.ack ⟨blk⟩) →
      ¬ min (pos + blockSize) dat.length < dat.length → 2 ≤ fuel →
      readLoop tid dat (fuel + 1) conn pos blk =
        some (conn1.after rest [(tid, D)], .returned)) ∧
    (∀ c ex, readLoop tid dat (fuel + 1) conn pos blk = some (c, ex) →
      conn1.sent ++ [(tid, D)] <+: c.sent) := by
  have hstep : readLoop tid dat (fuel + 1) conn pos blk = readLoop tid dat fuel conn1 pos blk := by
    rw [readLoop_ack hpos hT, if_neg hblk]
  refine ⟨hstep, Transmit_first_send hw hD hT, ?_, ?_, ?_⟩
  · intro rest m hwall hr hf
    rw [hstep]
    have hlt := Transmit_reads hT
    exact readLoop_next_send hwall hr (by omega) hpos hD
  · intro src d rest hwall hr hsrc hd hend hf
    obtain ⟨f, rfl⟩ : ∃ f, fuel = f + 1 + 1 := ⟨fuel - 2, by omega⟩
    have hT1 := Transmit_received hwall hD hr hsrc hd
    rw [hstep, readLoop_ack hpos hT1, if_pos rfl, readLoop, if_neg hend]
  · intro c ex h
    rw [hstep] at h
    exact readLoop_first_send hw1 hpos hD h

theorem mismatched_ack_resends_witness :
    ∃ c ex, readLoop sampleTid [65, 66, 67] (6 + 1) sampleAck7 0 1 = some (c, ex) ∧
      (sampleAck7.after (silence [1]) [(sampleTid, [0, 3, 0, 1, 65, 66, 67])]).sent ++
        [(sampleTid, [0, 3, 0, 1, 65, 66, 67])] <+: c.sent :=
  (mismatched_ack_resends sampleTid [65, 66, 67] sampleAck7
    (sampleAck7.after (silence [1]) [(sampleTid, [0, 3, 0, 1, 65, 66, 67])])
    6 0 1 [0, 3, 0, 1, 65, 66, 67] ⟨7⟩ (by decide) rfl rfl (by decide) rfl rfl).2.2.1
    [] [1] (fun _ => rfl) rfl (by decide)

/-- C19: block numbers wrap modulo 65536. In the receive loop of
`HandleWrite` with expected block 65535, a Data packet is accepted exactly
when its block number is 0, and the expected block is then 0. In the loop
of `HandleRead`, after the Data block 65535 is answered by Ack(65535) the
loop goes on with block number 0 and, when the file goes on, the next
packet it writes is the Data packet numbered 0. At block number 0 an Ack
with another number makes the loop write the Data packet numbered 0 again,
and Ack(0) makes it advance: it then writes the Data packet numbered 1, or
returns at the end of the file. Each next packet is shown on every
continuation that ends in silence of the peers, where the loop returns. -/
theorem block_numbers_wrap (tid : Addr) (dat buf : Bytes) (fuel pos pos0 : Nat)
    (connW connW1 connR connR1 connZ connZ1 : Conn) (dp : DataPacket) (ap : AckPacket)
    (hTW : Transmit connW tid (.ack ⟨65535⟩) = some (connW1, .data dp, none))
    (hpos : pos < dat.length)
    (hTR : Transmit connR tid (.data ⟨65535, payloadAt dat pos⟩) =
      some (connR1, .ack ⟨65535⟩, none))
    (hpos0 : pos0 < dat.length)
    (hTZ : Transmit connZ tid (.data ⟨0, payloadAt dat pos0⟩) = some (connZ1, .ack ap, none)) :
    writeLoop tid (fuel + 1) connW 65535 buf =
      (if dp.Data.length < 512 then
        some (connW1, .done (if dp.Block = 0 then 0 else 65535)
          (if dp.Block = 0 then buf ++ dp.Data else buf))
      else
        writeLoop tid fuel connW1 (if dp.Block = 0 then 0 else 65535)
          (if dp.Block = 0 then buf ++ dp.Data else buf)) ∧
    readLoop tid dat (fuel + 1) connR pos 65535 =
      readLoop tid dat fuel connR1 (min (pos + blockSize) dat.length) 0 ∧
    (min (pos + blockSize) dat.length < dat.length →
      ∀ (rest : List ReadResult) (m : GoString), connR1.noWriteFailure →
        connR1.reads = rest ++ silence m → connR.reads.length ≤ fuel →
        ∃ c ex, readLoop tid dat (fuel + 1) connR pos 65535 = some (c, ex) ∧
          connR1.sent ++
            [(tid, [0, 3, 0, 0] ++ payloadAt dat (min (pos + blockSize) dat.length))] <+: c.sent) ∧
    readLoop tid dat (fuel + 1) connZ pos0 0 =
      (if ap.Block = 0 then readLoop tid dat fuel connZ1 (min (pos0 + blockSize) dat.length) 1
      else readLoop tid dat fuel connZ1 pos0 0) ∧
    (ap.Block ≠ 0 →
      ∀ (rest : List ReadResult) (m : GoString), connZ1.noWriteFailure →
        connZ1.reads = rest ++ silence m → connZ.reads.length ≤ fuel →
        ∃ c ex, readLoop tid dat (fuel + 1) connZ pos0 0 = some (c, ex) ∧
          connZ1.sent ++ [(tid, [0, 3, 0, 0] ++ payloadAt dat pos0)] <+: c.sent) ∧
    (ap.Block = 0 → min (pos0 + blockSize) dat.length < dat.length →
      ∀ (rest : List ReadResult) (m : GoString), connZ1.noWriteFailure →
        connZ1.reads = rest ++ silence m → connZ.reads.length ≤ fuel →
        ∃ c ex, readLoop tid dat (fuel + 1) connZ pos0 0 = some (c, ex) ∧
          connZ1.sent ++
            [(tid, [0, 3, 0, 1] ++ payloadAt dat (min (pos0 + blockSize) dat.length))] <+: c.sent) ∧
    (ap.Block = 0 → ¬ min (pos0 + blockSize) dat.length < dat.length →
      connZ.reads.length ≤ fuel →
      readLoop tid dat (fuel + 1) connZ pos0 0 = some (connZ1, .returned)) := by
  have hR : readLoop tid dat (fuel + 1) connR pos 65535 =
      readLoop tid dat fuel connR1 (min (pos + blockSize) dat.length) 0 := by
    rw [readLoop_ack hpos hTR, if_pos rfl]
  have hZ : readLoop tid dat (fuel + 1) connZ pos0 0 =
      (if ap.Block = 0 then readLoop tid dat fuel connZ1 (min (pos0 + blockSize) dat.length) 1
      else readLoop tid dat fuel connZ1 pos0 0) := by
    rw [readLoop_ack hpos0 hTZ]
    by_cases h0 : ap.Block = 0
    · rw [if_pos h0.symm, if_pos h0]
    · rw [if_neg (fun e => h0 e.symm), if_neg h0]
  have hltR := Transmit_reads hTR
  have hltZ := Transmit_reads hTZ
  refine ⟨?_, hR, ?_, hZ, ?_, ?_, ?_⟩
  · rw [writeLoop_data hTW]
    have e : (65535 + 1) % 65536 = 0 := by decide
    simp only [e, blockSize]
    by_cases h0 : dp.Block = 0
    · simp [h0]
    · simp [h0]
  · intro hnext rest m hw hr hf
    rw [hR]
    exact readLoop_next_send hw hr (by omega) hnext
      (DataPacket_Bytes_of_lt (by decide : 0 < 65536) _)
  · intro h0 rest m hw hr hf
    rw [hZ, if_neg h0]
    exact readLoop_next_send hw hr (by omega) hpos0
      (DataPacket_Bytes_of_lt (by decide : 0 < 65536) _)
  · intro h0 hnext rest m hw hr hf
    rw [hZ, if_pos h0]
    exact readLoop_next_send hw hr (by omega) hnext
      (DataPacket_Bytes_of_lt (by decide : 1 < 65536) _)
  · intro h0 hnext hf
    obtain ⟨f, rfl⟩ : ∃ f, fuel = f + 1 := ⟨fuel - 1, by omega⟩
    rw [hZ, if_pos h0, readLoop, if_neg hnext]

theorem block_numbers_wrap_witness :
    ∃ c ex, readLoop sampleTid [65, 66, 67] (6 + 1) sampleAck7 0 0 = some (c, ex) ∧
      (sampleAck7.after (silence [1]) [(sampleTid, [0, 3, 0, 0, 65, 66, 67])]).sent ++
        [(sampleTid, [0, 3, 0, 0] ++ payloadAt [65, 66, 67] 0)] <+: c.sent :=
  (block_numbers_wrap sampleTid [65, 66, 67] [9] 6 0 0
    (sampleConn [.datagram sampleTid [0, 3, 0, 0, 65]])
    ((sampleConn [.datagram sampleTid [0, 3, 0, 0, 65]]).after [] [(sampleTid, [0, 4, 255, 255])])
    sampleAckMax
    (sampleAckMax.after (silence [1]) [(sampleTid, [0, 3, 255, 255, 65, 66, 67])])
    sampleAck7
    (sampleAck7.after (silence [1]) [(sampleTid, [0, 3, 0, 0, 65, 66, 67])])
    ⟨0, [65]⟩ ⟨7⟩ rfl (by decide) rfl (by decide) rfl).2.2.2.2.1 (by decide)
    [] [1] (fun _ => rfl) rfl (by decide)

/-! ## HandleWrite: ignored blocks and the retry bound -/

/-- The receive loop of `HandleWrite` across full blocks whose number is not
the expected block plus one: each is answered by the same Ack again, the
expected block and the buffer stay. -/
theorem writeLoop_ignored {tid src : Addr} (hsrc : src.String = tid.String) {blk : Nat}
    {A : Bytes} (hA : (Packet.ack ⟨blk⟩).Bytes = .ok A) (rest : List ReadResult)
    (bad : List (Nat × Bytes)) :
    ∀ (conn : Conn) (fuel : Nat) (acc : Bytes), conn.noWriteFailure →
      (∀ p ∈ bad, p.1 < 65536 ∧ p.1 ≠ (blk + 1) % 65536 ∧ p.2.length = 512) →
      conn.reads = blockDatagrams src bad ++ rest →
      writeLoop tid (fuel + bad.length) conn blk acc =
        writeLoop tid fuel (conn.after rest (List.replicate bad.length (tid, A))) blk acc := by
  induction bad with
  | nil =>
    intro conn fuel acc _ _ hr
    have hr1 : conn.reads = rest := hr
    have hc : conn.after rest [] = conn := by rw [← hr1]; exact conn.after_self
    simp [hc]
  | cons p ps ih =>
    intro conn fuel acc hw hbad hr
    obtain ⟨hlt, hne, hlen⟩ := hbad p (List.mem_cons_self _ _)
    have hr1 : conn.reads =
        .datagram src ([0, 3, p.1 / 256, p.1 % 256] ++ p.2) :: (blockDatagrams src ps ++ rest) := hr
    have hd : MakePacket (([0, 3, p.1 / 256, p.1 % 256] ++ p.2).take 1024) =
        .ok (.data ⟨p.1, p.2⟩) := by
      rw [List.take_of_length_le (by simp; omega)]
      exact MakePacket_data_wire hlt p.2
    have hT := Transmit_received hw hA hr1 hsrc hd
    have hnot : ¬ (DataPacket.mk p.1 p.2).Data.length < blockSize := by
      simp [blockSize, hlen]
    have hlen1 : fuel + (p :: ps).length = (fuel + ps.length) + 1 := by
      simp [Nat.add_assoc]
    rw [hlen1, writeLoop_data hT, if_neg hnot, if_neg hne, if_neg hne,
      ih _ fuel acc (Conn.noWriteFailure_after hw _ _)
        (fun q hq => hbad q (List.mem_cons_of_mem _ hq)) rfl, Conn.after_after]
    simp [List.replicate_succ]

/-- A write transfer that meets ignored full blocks and then the first block,
short, in order. -/
theorem HandleWrite_ignored_then_final {conn : Conn} {tid src : Addr}
    (hw : conn.noWriteFailure) (hsrc : src.String = tid.String) (wp : WritePacket)
    (store : MemStore) (bad : List (Nat × Bytes)) (last : Bytes) (rest : List ReadResult)
    (hbad : ∀ p ∈ bad, p.1 < 65536 ∧ p.1 ≠ 1 ∧ p.2.length = 512) (hlast : last.length < 512)
    (hr : conn.reads = blockDatagrams src bad ++ .datagram src ([0, 3, 0, 1] ++ last) :: rest) :
    HandleWrite conn tid wp memStorage store =
      some (conn.after rest
          (List.replicate (bad.length + 1) (tid, [0, 4, 0, 0]) ++ [(tid, [0, 4, 0, 1])]),
        (store.Put wp.File last).1, .returned) := by
  have hA : (Packet.ack ⟨0⟩).Bytes = .ok [0, 4, 0, 0] := rfl
  have hfuel : conn.reads.length + 1 = (rest.length + 1 + 1) + bad.length := by
    simp [hr, blockDatagrams]; omega
  have hloop1 := writeLoop_ignored hsrc hA (.datagram src ([0, 3, 0, 1] ++ last) :: rest) bad
    conn (rest.length + 1 + 1) [] hw hbad hr
  have hw1 : (conn.after (.datagram src ([0, 3, 0, 1] ++ last) :: rest)
      (List.replicate bad.length (tid, [0, 4, 0, 0]))).noWriteFailure := hw
  have hloop2 := writeLoop_in_order hsrc last hlast rest [] _ (rest.length + 1 + 1) 0 [] hw1
    (by simp) (by simp) (by simp) (by simp [uploadDatagrams, Conn.after])
  rw [Conn.after_after] at hloop2
  have hloop : writeLoop tid (conn.reads.length + 1) conn 0 [] =
      some (conn.after rest (List.replicate (bad.length + 1) (tid, [0, 4, 0, 0])),
        .done 1 last) := by
    rw [hfuel, hloop1, hloop2]
    simp [ackSends, List.range', List.replicate_succ']
  have hw2 : (conn.after rest (List.replicate (bad.length + 1) (tid, [0, 4, 0, 0]))).wfail
      (conn.after rest (List.replicate (bad.length + 1) (tid, [0, 4, 0, 0]))).writes = none :=
    hw _
  have hA1 : (Packet.ack ⟨1⟩).Bytes = .ok [0, 4, 0, 1] := rfl
  rw [HandleWrite_of_done hloop hA1 hw2, Conn.after_after]
  rfl

/-- C18 as stated fails: whatever the number n of mismatched full-size Data
blocks (number 7, 512 bytes) that the expected address sends first, a
transfer that then receives block 1 in order has not written the timeout
Error packet. -/
theorem ignored_blocks_do_not_abort :
    ¬ ∃ n : Nat, ∀ rest : List ReadResult, ∃ c st e,
      HandleWrite
          (sampleConn (blockDatagrams sampleTid (List.replicate n (7, List.replicate 512 0)) ++ rest))
          sampleTid ⟨[70], str "octet"⟩ memStorage NewMemStore = some (c, st, e) ∧
        c.reads = rest ∧
        (sampleTid, [0, 5, 0, 0] ++ str "Connection timed out" ++ [0]) ∈ c.sent := by
  rintro ⟨n, h⟩
  obtain ⟨c, st, e, hH, -, hmem⟩ := h [ReadResult.datagram sampleTid ([0, 3, 0, 1] ++ [65])]
  have hbad : ∀ p ∈ List.replicate n (7, List.replicate 512 0),
      p.1 < 65536 ∧ p.1 ≠ 1 ∧ p.2.length = 512 := by
    intro p hp
    rw [List.eq_of_mem_replicate hp]
    exact ⟨by decide, by decide, List.length_replicate _ _⟩
  have hrun := @HandleWrite_ignored_then_final
    (sampleConn (blockDatagrams sampleTid (List.replicate n (7, List.replicate 512 0)) ++
      [ReadResult.datagram sampleTid ([0, 3, 0, 1] ++ [65])]))
    sampleTid sampleTid (fun _ => rfl) rfl ⟨[70], str "octet"⟩ NewMemStore
    (List.replicate n (7, List.replicate 512 0)) [65] [] hbad (by decide) rfl
  rw [hrun] at hH
  simp only [Option.some.injEq, Prod.mk.injEq] at hH
  rw [← hH.1] at hmem
  change _ ∈ [] ++ (List.replicate _ _ ++ [_]) at hmem
  rw [List.nil_append, List.mem_append, List.mem_singleton] at hmem
  rcases hmem with hm | hm
  · have := List.eq_of_mem_replicate hm
    simp at this
  · simp at hm

/-- C18, amended: ignored write blocks consume no attempt of the retry bound.
For every list of mismatched full-size Data blocks (512 bytes, block number
other than 1) from the expected address, followed by block 1 in order with
fewer than 512 bytes, and no write failure, `HandleWrite` answers each
ignored block by Ack(0) again, then stores the payload of block 1 and
writes the final Ack(1): it writes no Error packet and is not aborted. -/
theorem ignored_blocks_consume_no_attempt (conn : Conn) (tid src : Addr) (wp : WritePacket)
    (store : MemStore) (bad : List (Nat × Bytes)) (last : Bytes) (rest : List ReadResult)
    (hw : conn.noWriteFailure) (hsrc : src.String = tid.String)
    (hbad : ∀ p ∈ bad, p.1 < 65536 ∧ p.1 ≠ 1 ∧ p.2.length = 512) (hlast : last.length < 512)
    (hr : conn.reads = blockDatagrams src bad ++ .datagram src ([0, 3, 0, 1] ++ last) :: rest) :
    HandleWrite conn tid wp memStorage store =
      some (conn.after rest
          (List.replicate (bad.length + 1) (tid, [0, 4, 0, 0]) ++ [(tid, [0, 4, 0, 1])]),
        (store.Put wp.File last).1, .returned) ∧
    (store.Put wp.File last).1.Get wp.File = .ok last ∧
    (∀ x ∈ List.replicate (bad.length + 1) (tid, [0, 4, 0, 0]) ++ [(tid, [0, 4, 0, 1])],
      ∀ m : GoString, x.2 ≠ [0, 5, 0, 0] ++ m ++ [0]) := by
  refine ⟨HandleWrite_ignored_then_final hw hsrc wp store bad last rest hbad hlast hr, ?_, ?_⟩
  · simp [MemStore.Put, MemStore.Get]
  · intro x hx m
    rw [List.mem_append, List.mem_singleton] at hx
    rcases hx with hx | hx
    · rw [List.eq_of_mem_replicate hx]
      simp
    · rw [hx]
      simp

theorem ignored_blocks_consume_no_attempt_witness :
    HandleWrite
        (sampleConn (blockDatagrams sampleTid [(7, List.replicate 512 0)] ++
          ReadResult.datagram sampleTid ([0, 3, 0, 1] ++ [65]) :: []))
        sampleTid ⟨[70], str "octet"⟩ memStorage NewMemStore =
      some ((sampleConn (blockDatagrams sampleTid [(7, List.replicate 512 0)] ++
            ReadResult.datagram sampleTid ([0, 3, 0, 1] ++ [65]) :: [])).after []
          (List.replicate ([(7, List.replicate 512 0)].length + 1) (sampleTid, [0, 4, 0, 0]) ++
            [(sampleTid, [0, 4, 0, 1])]),
        (NewMemStore.Put [70] [65]).1, .returned) :=
  (ignored_blocks_consume_no_attempt
    (sampleConn (blockDatagrams sampleTid [(7, List.replicate 512 0)] ++
      ReadResult.datagram sampleTid ([0, 3, 0, 1] ++ [65]) :: []))
    sampleTid sampleTid ⟨[70], str "octet"⟩ NewMemStore [(7, List.replicate 512 0)] [65] []
    (fun _ => rfl) rfl
    (fun p hp => by
      rw [List.mem_singleton.1 hp]
      exact ⟨by decide, by decide, List.length_replicate _ _⟩)
    (by decide) rfl).1

/-! ## Transmit: timeouts add up across wrong transfer IDs -/

/-- C21: within one call of `Transmit` the timeouts add up and datagrams with
a wrong transfer ID neither count nor reset the count. For every sequence
`pre` of timeouts and wrong-ID outcomes, in any order: when `pre` holds
exactly 4 timeouts and a timeout follows, `Transmit` returns the timed-out
Error packet at that fifth timeout, reading nothing further; when `pre`
holds at most 4 timeouts and a decodable datagram from the expected remote
follows, `Transmit` returns its decoding without failure. -/
theorem timeouts_cumulative (conn : Conn) (tid : Addr) (packet : Packet) (buf e5 : Bytes)
    (pre rest : List ReadResult)
    (hw : conn.noWriteFailure) (hb : packet.Bytes = .ok buf)
    (he5 : (Packet.err ⟨5, str "Unknown transfer ID"⟩).Bytes = .ok e5)
    (hpre : ∀ r ∈ pre, retryOutcome tid r = true) :
    (∀ m : GoString, countTimeouts pre = 4 →
      conn.reads = pre ++ .fail (.timeout m) :: rest →
      Transmit conn tid packet =
        some (conn.after rest (retrySent tid buf e5 pre ++ [(tid, buf)]),
          .err ⟨0, str "Connection timed out"⟩, some (.timeout m))) ∧
    (∀ (src : Addr) (d : Bytes) (raw : Raw), countTimeouts pre ≤ 4 →
      src.String = tid.String → MakePacket (d.take 1024) = .ok raw →
      conn.reads = pre ++ .datagram src d :: rest →
      Transmit conn tid packet =
        some (conn.after rest (retrySent tid buf e5 pre ++ [(tid, buf)]), raw, none)) := by
  constructor
  · intro m h4 hr
    have hfuel : conn.reads.length + 1 = (rest.length + 1 + 1) + pre.length := by
      simp [hr]; omega
    rw [Transmit, hfuel,
      transmitLoop_retries hb he5 _ _ conn _ 0 hw hr hpre (by simp [h4, maxTimeout]),
      transmitLoop_timeout_last (Conn.noWriteFailure_after hw _ _) hb rfl _
        (by simp [h4, maxTimeout]),
      Conn.after_after]
  · intro src d raw h4 hsrc hd hr
    have hfuel : conn.reads.length + 1 = (rest.length + 1 + 1) + pre.length := by
      simp [hr]; omega
    rw [Transmit, hfuel,
      transmitLoop_retries hb he5 _ _ conn _ 0 hw hr hpre (by simp [maxTimeout]; omega),
      transmitLoop_received (Conn.noWriteFailure_after hw _ _) hb rfl hsrc hd,
      Conn.after_after]

theorem timeouts_cumulative_witness :
    Transmit (sampleConn (sampleRetries ++ ReadResult.fail (GoError.timeout [5]) :: []))
        sampleTid (.ack ⟨1⟩) =
      some ((sampleConn (sampleRetries ++ ReadResult.fail (GoError.timeout [5]) :: [])).after []
          (retrySent sampleTid [0, 4, 0, 1] sampleErr5 sampleRetries ++
            [(sampleTid, [0, 4, 0, 1])]),
        .err ⟨0, str "Connection timed out"⟩, some (.timeout [5])) :=
  (timeouts_cumulative
    (sampleConn (sampleRetries ++ ReadResult.fail (GoError.timeout [5]) :: []))
    sampleTid (.ack ⟨1⟩) [0, 4, 0, 1] sampleErr5 sampleRetries []
    (fun _ => rfl) rfl (by decide) (by decide)).1 [5] (by decide) rfl

end Tftpd
